import Mathlib

/-!
A shallow embedding of the core extraction engine of the RebateDocs repository:
`app/services/extract.py` (the line-oriented contextual extractor) and
`app/services/validate.py` (the de-duplication pass), together with theorems
settling the frozen claims about them.

Python floating point values (bounding-box coordinates, confidence scores) are
modelled as rationals: the source only ever compares them, and comparison of
the doubles appearing here agrees with comparison of the rationals they denote.
Python `Optional[T]` is `Option T`; absent is `none`.  Python regular
expressions are embedded as hand-written matchers on `List Char`; each matcher
carries a comment quoting the regex it implements.
-/

namespace RebateDocs

/-! ## Character and string utilities -/

/-- Python whitespace for `str.strip()` and for `\s` in `re` patterns on `str`
(ASCII whitespace plus the common Unicode space characters that appear in the
source's `_WS` class). -/
def isPyWS (c : Char) : Bool :=
  c = ' ' || c = '\t' || c = '\n' || c = '\r' || c = '\x0b' || c = '\x0c' ||
  c = '\u00A0' || c = '\u2007' || c = '\u202F' || c = '\u2028' || c = '\u2029'

/-- Word character for `\b` boundaries (`\w`): alphanumeric or underscore. -/
def isWordChar (c : Char) : Bool :=
  c.isAlphanum || c = '_'

/-- Drop leading Python whitespace (regex `\s*`). -/
def wsMany (cs : List Char) : List Char :=
  cs.dropWhile isPyWS

/-- Regex `\s+`: at least one whitespace character, consumed greedily. -/
def ws1 : List Char → Option (List Char)
  | [] => none
  | c :: r => if isPyWS c then some (wsMany r) else none

/-- All characters are whitespace (used for trailing `\s*$`). -/
def allWS (cs : List Char) : Bool :=
  cs.all isPyWS

/-- Python `str.strip()` on a character list. -/
def pyStripL (cs : List Char) : List Char :=
  (cs.dropWhile isPyWS).reverse.dropWhile isPyWS |>.reverse

/-- Python `str.strip()`. -/
def pyStrip (s : String) : String :=
  ⟨pyStripL s.data⟩

/-- Python `str.strip(chars)`: strip the given characters from both ends. -/
def pyStripChars (chars : List Char) (s : String) : String :=
  ⟨((s.data.dropWhile (chars.contains ·)).reverse.dropWhile (chars.contains ·)).reverse⟩

/-- Python `str.lower()` (ASCII case folding suffices for this corpus). -/
def pyLower (s : String) : String :=
  ⟨s.data.map Char.toLower⟩

/-- Python `str.upper()`. -/
def pyUpper (s : String) : String :=
  ⟨s.data.map Char.toUpper⟩

/-- Case-insensitive literal match: consume `pat` from the front of `cs`,
returning the remainder on success. -/
def matchCI : List Char → List Char → Option (List Char)
  | [], cs => some cs
  | _ :: _, [] => none
  | p :: ps, c :: cs => if c.toLower = p.toLower then matchCI ps cs else none

/-- Case-sensitive literal match, returning the remainder on success. -/
def matchCS : List Char → List Char → Option (List Char)
  | [], cs => some cs
  | _ :: _, [] => none
  | p :: ps, c :: cs => if c = p then matchCS ps cs else none

/-- Python `pat in s` (substring containment), case-sensitive. -/
def containsSub (s pat : String) : Bool :=
  let rec go : List Char → Bool
    | [] => (matchCS pat.data []).isSome
    | c :: cs => (matchCS pat.data (c :: cs)).isSome || go cs
  go s.data

/-- Python `"$" in txt` style membership test for a single character. -/
def containsChar (s : String) (c : Char) : Bool :=
  s.data.contains c

/-- Value of an ASCII digit character. -/
def digitVal (c : Char) : Nat :=
  c.toNat - 48

/-- Python `str.isdigit()`-based `int()` of a source fragment: every character
an ASCII digit and the string non-empty. -/
def pyDigitsToNat (cs : List Char) : Option Nat :=
  if cs ≠ [] ∧ cs.all Char.isDigit then
    some (cs.foldl (fun acc c => acc * 10 + digitVal c) 0)
  else none

/-- Python `s.replace(old, "")` for single characters, used by
`normalize_amount` to delete `$` and `,`. -/
def removeChar (c : Char) (s : String) : String :=
  ⟨s.data.filter (· ≠ c)⟩

/-- Python truthiness of an `Optional[str]`: `None` and `""` are falsy. -/
def strTruthy : Option String → Bool
  | none => false
  | some s => s ≠ ""

/-- Python `x or y` on `Optional[str]` values. -/
def pyOrStr (x y : Option String) : Option String :=
  if strTruthy x then x else y

/-- Python `x or d` where `x : Optional[str]` and `d` is a string default. -/
def pyOrStrVal (x : Option String) (d : String) : String :=
  match x with
  | some s => if s ≠ "" then s else d
  | none => d

/-- Python `x or y` on `Optional[int]` values (`0` is falsy). -/
def pyOrNat (x y : Option Nat) : Option Nat :=
  match x with
  | some n => if n ≠ 0 then some n else y
  | none => y

/-- Python slice `s[k:]` where `k` may be any integer (negative indexes count
from the end, clamped at zero). -/
def pySliceFrom (s : String) (k : Int) : String :=
  if k ≥ 0 then ⟨s.data.drop k.toNat⟩
  else ⟨s.data.drop (s.data.length - (-k).toNat)⟩

/-- Python `str.startswith` (case-sensitive). -/
def pyStartsWith (s pat : String) : Bool :=
  (matchCS pat.data s.data).isSome

/-! ## Comparators for the sort keys

Python sorts tuples lexicographically, numbers by value and strings by code
point.  These comparators implement exactly that (they are also executable by
the proof kernel, unlike the generic order instances). -/

/-- Three-way comparison of naturals. -/
def cmpN (a b : Nat) : Ordering :=
  if a < b then .lt else if b < a then .gt else .eq

/-- Three-way comparison of integers. -/
def cmpI (a b : Int) : Ordering :=
  if a < b then .lt else if b < a then .gt else .eq

/-- Three-way comparison of characters by code point. -/
def cmpChar (a b : Char) : Ordering :=
  cmpN a.toNat b.toNat

/-- Lexicographic three-way comparison of character lists. -/
def cmpCharList : List Char → List Char → Ordering
  | [], [] => .eq
  | [], _ :: _ => .lt
  | _ :: _, [] => .gt
  | a :: as, b :: bs =>
    match cmpChar a b with
    | .eq => cmpCharList as bs
    | o => o

/-- Python string comparison (code-point lexicographic). -/
def cmpStr (a b : String) : Ordering :=
  cmpCharList a.data b.data

/-- Lexicographic comparator of a pair from comparators of the parts. -/
def cmpProd {α β : Type} (ca : α → α → Ordering) (cb : β → β → Ordering)
    (x y : α × β) : Ordering :=
  match ca x.1 y.1 with
  | .eq => cb x.2 y.2
  | o => o

/-- A comparator that decides equality, is antisymmetric and transitive (the
laws shared by the component comparators and preserved by `cmpProd`). -/
structure LawfulCmp {α : Type} (c : α → α → Ordering) : Prop where
  eq_iff : ∀ a b, c a b = .eq ↔ a = b
  swap : ∀ a b, c a b = (c b a).swap
  lt_trans : ∀ a b d, c a b = .lt → c b d = .lt → c a d = .lt

/-! ## Data model (`app/models/schemas.py`)

`Span.kind` is omitted: `extract` writes it in a pre-classification pass and
no later step of the pipeline reads it, so it does not influence any output.
`KV.label_key`, `label_text`, `notes`, `label_bbox` and `amount_bbox` are
likewise omitted: `extract` and `tighten` never set or read them. -/

/-- Bounding box `(x0, y0, x1, y1)` in page coordinates. -/
abbrev BBox := ℚ × ℚ × ℚ × ℚ

/-- One positioned token from the PDF (`Span` in `schemas.py`).  The
tokenizer contract guarantees a page number and an integer line id. -/
structure Span where
  text : String
  bbox : BBox
  page : Nat
  font_bold : Bool := false
  line_id : Nat
  block_id : Option Nat := none
  deriving Repr, DecidableEq

/-- One extracted rebate row (`KV` in `schemas.py`). -/
structure KV where
  amount_dollars : Option Nat := none
  currency : String := "USD"
  rebate_type : Option String := none
  program_id : Option String := none
  published_date : Option String := none
  program_start_date : Option String := none
  program_end_date : Option String := none
  model_year : Option Nat := none
  model : Option String := none
  trim : Option String := none
  exclusions : Option String := none
  page : Nat
  confidence : ℚ := 0
  deriving Repr, DecidableEq

/-- Provenance metadata attached to a `DocResult`. -/
structure Provenance where
  parser : String
  rules_version : String
  kv_groups : List (String × List Nat)
  kv_group_order : List String
  deriving Repr, DecidableEq

/-- Final output for one document (`DocResult` in `schemas.py`). -/
structure DocResult where
  doc_id : String
  kvs : List KV
  provenance : Provenance
  deriving Repr, DecidableEq

/-! ## Regex matchers (`extract.py` top-of-file patterns)

Each definition implements one of the compiled `re` patterns of
`app/services/extract.py` on `List Char`, including the backtracking order of
the original pattern where it is observable. -/

/-- First result of `f` over a list, in order (regex alternation order). -/
def firstSome {α β : Type} (f : α → Option β) : List α → Option β
  | [] => none
  | a :: as => match f a with
    | some b => some b
    | none => firstSome f as

/-- Word boundary after a consumed pattern: end of input or a non-word char. -/
def boundaryAfter (cs : List Char) : Bool :=
  match cs with
  | [] => true
  | c :: _ => !isWordChar c

/-- Word boundary before a position whose first char is a word char: the
previous character (if any) must be a non-word character. -/
def boundaryBefore (prev : Option Char) : Bool :=
  prev.elim true (fun p => !isWordChar p)

/-- Dash class `[-–]` used by `RANGE_PAT` and the Bonus/date-range patterns. -/
def isDashBW (c : Char) : Bool :=
  c = '-' || c = '\u2013'

/-- Remainder candidates of `\d{1,2}` (greedy: two digits first). -/
def digits12Rests : List Char → List (List Char)
  | a :: b :: r =>
    (if a.isDigit && b.isDigit then [r] else []) ++
    (if a.isDigit then [b :: r] else [])
  | [a] => if a.isDigit then [[]] else []
  | [] => []

/-- Remainder candidates of `\d{1,2}\s*/\s*\d{1,2}` (a month/day token). -/
def mdRests (cs : List Char) : List (List Char) :=
  (digits12Rests cs).flatMap fun r1 =>
    match wsMany r1 with
    | '/' :: r2 => digits12Rests (wsMany r2)
    | _ => []

/-- Pattern `BONUS_SOLO_PAT`: `^\s*Bonus\s*$` (case-insensitive). -/
def bonusSolo (t : String) : Bool :=
  (matchCI "Bonus".data (wsMany t.data)).elim false allWS

/-- Pattern `BONUS_WITH_DATES_PAT`:
`^\s*Bonus\s*(\d{1,2}\s*/\s*\d{1,2})?\s*[-–]\s*(\d{1,2}\s*/\s*\d{1,2})?\s*$`. -/
def bonusWithDates (t : String) : Bool :=
  (matchCI "Bonus".data (wsMany t.data)).elim false fun rest =>
    (mdRests (wsMany rest) ++ [rest]).any fun r =>
      match wsMany r with
      | d :: r2 =>
        isDashBW d &&
          (let r3 := wsMany r2
           (mdRests r3).any (fun r4 => allWS r4) || allWS r3)
      | [] => false

/-- Pattern `DATE_RANGE_LABEL_PAT`:
`^\s*\d{1,2}\s*/\s*\d{1,2}\s*[-–]\s*\d{1,2}\s*/\s*\d{1,2}\s*$`. -/
def dateRangeLabel (t : String) : Bool :=
  (mdRests (wsMany t.data)).any fun r =>
    match wsMany r with
    | d :: r2 => isDashBW d && (mdRests (wsMany r2)).any (fun r4 => allWS r4)
    | [] => false

/-- Python `re.fullmatch(pat, txt, IGNORECASE)` for a literal pattern. -/
def fullmatchCI (pat t : String) : Bool :=
  matchCI pat.data t.data = some []

/-- Pattern `INLINE_HEADER_PAT` applied with `.match`:
`^\s*Program ID\s+Published\s+Program Start\s+Program End\b` (ci). -/
def inlineHeaderMatch (t : String) : Bool :=
  (matchCI "Program ID".data (wsMany t.data)).elim false fun r1 =>
    (ws1 r1).elim false fun r2 =>
      (matchCI "Published".data r2).elim false fun r3 =>
        (ws1 r3).elim false fun r4 =>
          (matchCI "Program Start".data r4).elim false fun r5 =>
            (ws1 r5).elim false fun r6 =>
              (matchCI "Program End".data r6).elim false boundaryAfter

/-- One token of a heading suffix: a single `\s` char or a literal. -/
inductive HTok where
  | ws : HTok
  | lit : String → HTok

/-- Match a token list, returning consumed length and remainder. -/
def matchHToks : List HTok → List Char → Option (Nat × List Char)
  | [], cs => some (0, cs)
  | .ws :: ts, c :: cs =>
    if isPyWS c then (matchHToks ts cs).map (fun p => (p.1 + 1, p.2)) else none
  | .ws :: _, [] => none
  | .lit s :: ts, cs =>
    (matchCI s.data cs).bind fun r =>
      (matchHToks ts r).map fun p => (p.1 + s.data.length, p.2)

/-- The alternation branches of `REBATE_HEADING_PAT`, each a base literal with
its optional suffixes in greedy trial order (suffix first, then empty). -/
def headingBranches : List (String × List (List HTok)) :=
  [ ("Dealer Bonus", [[.ws, .lit "-", .ws, .lit "EV"], []]),
    ("Retail Customer Bonus", [[.ws, .lit "-", .ws, .lit "EV"], []]),
    ("APR Customer Bonus", [[.ws, .lit "-", .ws, .lit "EV"], [.lit " - Labor Day"], []]),
    ("Lease Dealer Bonus", [[.ws, .lit "-", .ws, .lit "EV"], []]),
    ("Lease Customer Bonus", [[.ws, .lit " - Labor Day"], []]),
    ("Loyalty Bonus", [[]]),
    ("Tiguan Loyalty Code Bonus", [[]]),
    ("Volkswagen Private Incentive Code Bonus", [[]]),
    ("Sales Elite Program", [[]]),
    ("VFI Program", [[]]),
    ("Final Pay", [[]]),
    ("Target Achievement Bonus", [[]]) ]

/-- Try `REBATE_HEADING_PAT`'s alternation at one position, returning the
number of consumed characters of the leftmost-alternative match. -/
def headingAt (cs : List Char) : Option Nat :=
  firstSome
    (fun br =>
      (matchCI br.1.data cs).bind fun rest =>
        firstSome
          (fun opt =>
            (matchHToks opt rest).bind fun p =>
              if boundaryAfter p.2 then some (br.1.data.length + p.1) else none)
          br.2)
    headingBranches

/-- Pattern `REBATE_HEADING_PAT` with `.search`: the matched heading text
(`group(0)`), scanning left to right with `\b` on both sides. -/
def rebateHeadingSearchL (prev : Option Char) : List Char → Option String
  | [] => none
  | c :: cs =>
    match (if boundaryBefore prev then headingAt (c :: cs) else none) with
    | some n => some ⟨(c :: cs).take n⟩
    | none => rebateHeadingSearchL (some c) cs

/-- Search of `REBATE_HEADING_PAT` over a line. -/
def rebateHeadingSearch (t : String) : Option String :=
  rebateHeadingSearchL none t.data

/-- Strip trailing Python whitespace (regex `\s*$`). -/
def trimRightWS (cs : List Char) : List Char :=
  (cs.reverse.dropWhile isPyWS).reverse

/-- Character class `[A-Za-z0-9\.\s&\-]` of `MODEL_HEADER_PAT`'s group 2. -/
def modelClassChar (c : Char) : Bool :=
  c.isAlpha || c.isDigit || c = '.' || isPyWS c || c = '&' || c = '-'

/-- Take exactly `n` ASCII digits from the front. -/
def grabDigits : Nat → List Char → Option (List Char × List Char)
  | 0, cs => some ([], cs)
  | n + 1, c :: cs =>
    if c.isDigit then (grabDigits n cs).map (fun p => (c :: p.1, p.2)) else none
  | _ + 1, [] => none

/-- Numeric value of a digit list. -/
def digitsVal (cs : List Char) : Nat :=
  cs.foldl (fun a c => a * 10 + digitVal c) 0

/-- Year-group semantics of the `MY` headers:
`int(y) if len(y) == 4 else 2000 + int(y)`. -/
def yearOfGroup (y : String) : Nat :=
  if y.data.length = 4 then digitsVal y.data else 2000 + digitsVal y.data

/-- Continuation of `MODEL_HEADER_PAT` after the year group:
`\s+((?!Bonus\b)[A-Za-z][A-Za-z0-9\.\s&\-]+?)\s*$`. -/
def modelHeaderCand (yDigits rest : List Char) : Option (String × String) :=
  (ws1 rest).bind fun r2 =>
    let body := trimRightWS r2
    if 2 ≤ body.length ∧ body.head?.elim false Char.isAlpha = true ∧
        body.all modelClassChar = true ∧
        ¬ ((matchCI "Bonus".data body).elim false boundaryAfter = true) then
      some (⟨yDigits⟩, ⟨body⟩)
    else none

/-- Pattern `MODEL_HEADER_PAT` applied with `.match`:
`^\s*MY\s*(\d{2}|\d{4})\s+((?!Bonus\b)[A-Za-z][A-Za-z0-9\.\s&\-]+?)\s*$` (ci).
Returns (year group, model group). -/
def modelHeaderMatch (t : String) : Option (String × String) :=
  (matchCI "MY".data (wsMany t.data)).bind fun r0 =>
    let r1 := wsMany r0
    match grabDigits 2 r1 with
    | some p =>
      match modelHeaderCand p.1 p.2 with
      | some v => some v
      | none => (grabDigits 4 r1).bind fun q => modelHeaderCand q.1 q.2
    | none => (grabDigits 4 r1).bind fun q => modelHeaderCand q.1 q.2

/-- Pattern `MY_STANDALONE_PAT` applied with `.match`:
`^\s*MY\s*(\d{2}|\d{4})\s*$` (ci). -/
def myStandaloneMatch (t : String) : Option String :=
  (matchCI "MY".data (wsMany t.data)).bind fun r0 =>
    let r1 := wsMany r0
    match grabDigits 2 r1 with
    | some p =>
      if allWS p.2 then some ⟨p.1⟩
      else (grabDigits 4 r1).bind fun q => if allWS q.2 then some ⟨q.1⟩ else none
    | none => (grabDigits 4 r1).bind fun q => if allWS q.2 then some ⟨q.1⟩ else none

/-- Continuation of `MY_WITH_BONUS_PAT` after the year group:
`\s+Bonus(?:\s+\d{1,2}\s*/\s*\d{1,2}\s*[-–]\s*\d{1,2}\s*/\s*\d{1,2})?\s*$`. -/
def myWithBonusCand (rest : List Char) : Bool :=
  (ws1 rest).elim false fun r2 =>
    (matchCI "Bonus".data r2).elim false fun r3 =>
      allWS r3 ||
      ((ws1 r3).elim false fun r4 =>
        (mdRests r4).any fun r5 =>
          match wsMany r5 with
          | d :: r6 => isDashBW d && (mdRests (wsMany r6)).any (fun r7 => allWS r7)
          | [] => false)

/-- Pattern `MY_WITH_BONUS_PAT` applied with `.match` (ci). -/
def myWithBonusMatch (t : String) : Option String :=
  (matchCI "MY".data (wsMany t.data)).bind fun r0 =>
    let r1 := wsMany r0
    match grabDigits 2 r1 with
    | some p =>
      if myWithBonusCand p.2 then some ⟨p.1⟩
      else (grabDigits 4 r1).bind fun q => if myWithBonusCand q.2 then some ⟨q.1⟩ else none
    | none => (grabDigits 4 r1).bind fun q => if myWithBonusCand q.2 then some ⟨q.1⟩ else none

/-- Greedy `[\d,]*` split into (run, rest). -/
def digitsCommaRun (cs : List Char) : List Char × List Char :=
  (cs.takeWhile (fun c => c.isDigit || c = ','), cs.dropWhile (fun c => c.isDigit || c = ','))

/-- Try `RANGE_PAT` (`\$(\d[\d,]*)\s*[-–]\s*\$(\d[\d,]*)`) at one position. -/
def rangeAt : List Char → Option (String × String)
  | '$' :: c :: cs =>
    if c.isDigit then
      let p := digitsCommaRun cs
      match wsMany p.2 with
      | d :: r2 =>
        if isDashBW d then
          match wsMany r2 with
          | '$' :: c2 :: r3 =>
            if c2.isDigit then some (⟨c :: p.1⟩, ⟨c2 :: (digitsCommaRun r3).1⟩)
            else none
          | _ => none
        else none
      | [] => none
    else none
  | _ => none

/-- Search of `RANGE_PAT` over a line: groups 1 and 2 of the first match. -/
def rangeSearchL : List Char → Option (String × String)
  | [] => none
  | c :: cs =>
    match rangeAt (c :: cs) with
    | some v => some v
    | none => rangeSearchL cs

/-- Search of `RANGE_PAT` over a line. -/
def rangeSearch (t : String) : Option (String × String) :=
  rangeSearchL t.data

/-- Try the amount pattern `\$\s?\d[\d,]*` at one position, returning the
matched text and the remainder. -/
def moneyAt : List Char → Option (List Char × List Char)
  | '$' :: c :: cs =>
    if c.isDigit then
      let p := digitsCommaRun cs
      some ('$' :: c :: p.1, p.2)
    else if isPyWS c then
      match cs with
      | c2 :: cs2 =>
        if c2.isDigit then
          let p := digitsCommaRun cs2
          some ('$' :: c :: c2 :: p.1, p.2)
        else none
      | [] => none
    else none
  | _ => none

/-- Non-overlapping left-to-right matches of `\$\s?\d[\d,]*` (the `finditer`
loops of `extract`); the fuel argument only bounds the recursion and is never
exhausted when it starts at the list length. -/
def moneyFindAllAux : Nat → List Char → List String
  | 0, _ => []
  | _ + 1, [] => []
  | fuel + 1, c :: cs =>
    match moneyAt (c :: cs) with
    | some p => ⟨p.1⟩ :: moneyFindAllAux fuel p.2
    | none => moneyFindAllAux fuel cs

/-- All `\$\s?\d[\d,]*` matches of a line, left to right. -/
def moneyFindAll (t : String) : List String :=
  moneyFindAllAux t.data.length t.data

/-- Function `normalize_amount`: strip, delete `$` and `,`, then `int` if the
remainder is all digits, else absent. -/
def normalize_amount (text : String) : Option Nat :=
  pyDigitsToNat (removeChar ',' (removeChar '$' (pyStrip text))).data

/-- Try `PROGRAM_ID_PAT` (`\bV\d{2}[A-Z]{3}\d{2}\b`, case-sensitive) at one
position. -/
def programIdAt : List Char → Option String
  | 'V' :: a :: b :: c :: d :: e :: f :: g :: rest =>
    if a.isDigit && b.isDigit && c.isUpper && d.isUpper && e.isUpper &&
        f.isDigit && g.isDigit && boundaryAfter rest then
      some ⟨['V', a, b, c, d, e, f, g]⟩
    else none
  | _ => none

/-- Search of `PROGRAM_ID_PAT` over a line. -/
def programIdSearchL (prev : Option Char) : List Char → Option String
  | [] => none
  | c :: cs =>
    match (if boundaryBefore prev then programIdAt (c :: cs) else none) with
    | some v => some v
    | none => programIdSearchL (some c) cs

/-- First `PROGRAM_ID_PAT` match of a line. -/
def programIdSearch (t : String) : Option String :=
  programIdSearchL none t.data

/-- Month candidates of `DATE_PAT`'s `([01]?\d)` (greedy two digits first). -/
def monthCands : List Char → List (Nat × List Char)
  | a :: b :: r =>
    (if (a = '0' || a = '1') && b.isDigit then [(digitVal a * 10 + digitVal b, r)] else []) ++
    (if a.isDigit then [(digitVal a, b :: r)] else [])
  | [a] => if a.isDigit then [(digitVal a, [])] else []
  | [] => []

/-- Day candidates of `DATE_PAT`'s `([0-3]?\d)` (greedy two digits first). -/
def dayCands : List Char → List (Nat × List Char)
  | a :: b :: r =>
    (if ('0' ≤ a && a ≤ '3') && b.isDigit then [(digitVal a * 10 + digitVal b, r)] else []) ++
    (if a.isDigit then [(digitVal a, b :: r)] else [])
  | [a] => if a.isDigit then [(digitVal a, [])] else []
  | [] => []

/-- Separator class `[/\-]` of `DATE_PAT`. -/
def isDateSep (c : Char) : Bool :=
  c = '/' || c = '-'

/-- Exactly four digits (`(\d{4})`). -/
def year4 : List Char → Option (Nat × List Char)
  | a :: b :: c :: d :: r =>
    if a.isDigit && b.isDigit && c.isDigit && d.isDigit then
      some (((digitVal a * 10 + digitVal b) * 10 + digitVal c) * 10 + digitVal d, r)
    else none
  | _ => none

/-- Try `DATE_PAT` (`\b([01]?\d)[/\-]([0-3]?\d)[/\-](\d{4})\b`) at one
position, with the pattern's backtracking order. -/
def dateAt (cs : List Char) : Option (Nat × Nat × Nat × List Char) :=
  firstSome
    (fun mp =>
      match mp.2 with
      | s1 :: r2 =>
        if isDateSep s1 then
          firstSome
            (fun dp =>
              match dp.2 with
              | s2 :: r4 =>
                if isDateSep s2 then
                  (year4 r4).bind fun yp =>
                    if boundaryAfter yp.2 then some (mp.1, dp.1, yp.1, yp.2) else none
                else none
              | [] => none)
            (dayCands r2)
        else none
      | [] => none)
    (monthCands cs)

/-- Non-overlapping matches of `DATE_PAT` (`findall`); after a match the scan
resumes at the match end, whose preceding character is always a digit (a word
character), represented here by `'0'`. -/
def dateFindAllAux : Nat → Option Char → List Char → List (Nat × Nat × Nat)
  | 0, _, _ => []
  | _ + 1, _, [] => []
  | fuel + 1, prev, c :: cs =>
    match (if boundaryBefore prev then dateAt (c :: cs) else none) with
    | some r => (r.1, r.2.1, r.2.2.1) :: dateFindAllAux fuel (some '0') r.2.2.2
    | none => dateFindAllAux fuel (some c) cs

/-- All `DATE_PAT` matches of a line (month, day, year). -/
def dateFindAll (t : String) : List (Nat × Nat × Nat) :=
  dateFindAllAux t.data.length none t.data

/-- First `DATE_PAT` match of a line (`DATE_PAT.search`). -/
def dateSearch (t : String) : Option (Nat × Nat × Nat) :=
  (dateFindAll t).head?

/-- Gregorian leap year, as `calendar.isleap`. -/
def isLeap (y : Nat) : Bool :=
  y % 4 = 0 && (y % 100 ≠ 0 || y % 400 = 0)

/-- Day count of a month, as `calendar.monthrange(y, m)[1]` for `1 ≤ m ≤ 12`. -/
def daysInMonth (y m : Nat) : Nat :=
  if m = 2 then (if isLeap y then 29 else 28)
  else if m = 4 || m = 6 || m = 9 || m = 11 then 30
  else 31

/-- Decimal rendering of a natural number. -/
def natToStr (n : Nat) : String :=
  ⟨Nat.toDigits 10 n⟩

/-- Python `f"{n:02d}"`. -/
def pad2 (n : Nat) : String :=
  if n < 10 then "0" ++ natToStr n else natToStr n

/-- Python `f"{n:04d}"`. -/
def pad4 (n : Nat) : String :=
  if n < 10 then "000" ++ natToStr n
  else if n < 100 then "00" ++ natToStr n
  else if n < 1000 then "0" ++ natToStr n
  else natToStr n

/-- Function `iso_date_or_none`: search `DATE_PAT`, validate ranges and the
calendar, and render `YYYY-MM-DD`; every failure yields absent. -/
def iso_date_or_none (t : String) : Option String :=
  match dateSearch t with
  | none => none
  | some v =>
    let mm := v.1
    let dd := v.2.1
    let y := v.2.2
    if 1 ≤ mm ∧ mm ≤ 12 then
      if 1 ≤ dd ∧ dd ≤ 31 then
        if 1900 ≤ y ∧ y ≤ 2100 then
          if dd ≤ daysInMonth y mm then
            some (pad4 y ++ "-" ++ pad2 mm ++ "-" ++ pad2 dd)
          else none
        else none
      else none
    else none

/-- Brand tail of `ALL_VEHICLES_PAT` after `New,\s*unused\s+`: one of the
brand spellings followed by `\s+models\b` (alternation order of the source:
`VWolkswagen`, `VW`, `Volkswagen`). -/
def allVehiclesTail (r : List Char) : Bool :=
  ["VWolkswagen", "VW", "Volkswagen"].any fun brand =>
    (matchCI brand.data r).elim false fun r5 =>
      (ws1 r5).elim false fun r6 =>
        (matchCI "models".data r6).elim false boundaryAfter

/-- Try `ALL_VEHICLES_PAT` at one position. -/
def allVehiclesAt (cs : List Char) : Bool :=
  (matchCI "New,".data cs).elim false fun r1 =>
    (matchCI "unused".data (wsMany r1)).elim false fun r3 =>
      (ws1 r3).elim false allVehiclesTail

/-- Search of `ALL_VEHICLES_PAT` over a line. -/
def allVehiclesSearchL (prev : Option Char) : List Char → Bool
  | [] => false
  | c :: cs =>
    (boundaryBefore prev && allVehiclesAt (c :: cs)) || allVehiclesSearchL (some c) cs

/-- Pattern `ALL_VEHICLES_PAT` with `.search` (the `model="all"` phrases). -/
def allVehiclesSearch (t : String) : Bool :=
  allVehiclesSearchL none t.data

/-! ## Line reconstruction (`lines_from_spans`) -/

/-- Key of a span: `(page, line_id)`. -/
def spanKey (s : Span) : Nat × Nat :=
  (s.page, s.line_id)

/-- Keep the first occurrence of each element (Python dict key order). -/
def dedupFirstAux {α : Type} [DecidableEq α] (seen : List α) : List α → List α
  | [] => []
  | a :: as =>
    if seen.contains a then dedupFirstAux seen as
    else a :: dedupFirstAux (a :: seen) as

/-- Keep the first occurrence of each element. -/
def dedupFirst {α : Type} [DecidableEq α] (l : List α) : List α :=
  dedupFirstAux [] l

/-- Left bounding-box edge comparison used by the per-line stable sort
(`items.sort(key=lambda sp: sp.bbox[0])`). -/
def spanLeftLE (a b : Span) : Prop :=
  a.bbox.1 ≤ b.bbox.1

instance : DecidableRel spanLeftLE :=
  fun x y => inferInstanceAs (Decidable (x.bbox.1 ≤ y.bbox.1))

/-- The spans of one `(page, line_id)` bucket in input order. -/
def bucketOf (spans : List Span) (k : Nat × Nat) : List Span :=
  spans.filter (fun s => spanKey s = k)

/-- The bucket of a key, stably sorted by left edge — exactly the list whose
texts are joined into the line (`items.sort(key=...); " ".join(...)`). -/
def sortedBucket (spans : List Span) (k : Nat × Nat) : List Span :=
  (bucketOf spans k).insertionSort spanLeftLE

/-- The joined, stripped text of one line. -/
def lineTextOf (spans : List Span) (k : Nat × Nat) : String :=
  pyStrip (String.intercalate " " ((sortedBucket spans k).map Span.text))

/-- Function `lines_from_spans`: an association list from `(page, line_id)` to
joined line text, keys in first-appearance order (Python dict semantics). -/
def lines_from_spans (spans : List Span) : List ((Nat × Nat) × String) :=
  (dedupFirst (spans.map spanKey)).map fun k => (k, lineTextOf spans k)

/-- Python `lines.get(key, "")`. -/
def lookupLine (lines : List ((Nat × Nat) × String)) (k : Nat × Nat) : String :=
  ((lines.find? (fun p => p.1 = k)).map Prod.snd).getD ""

/-! ## TOC indexer (`build_toc_index` and friends) -/

/-- One table-of-contents entry. -/
structure TocEntry where
  program_id : String
  program_name : String
  updated_iso : Option String
  pages : List Nat
  deriving Repr, DecidableEq

/-- Search of `\bProgram ID\s+Program Name\s+Updated\s+Page\(s\)` (ci). -/
def tocHeaderAt (cs : List Char) : Bool :=
  (matchCI "Program ID".data cs).elim false fun r1 =>
    (ws1 r1).elim false fun r2 =>
      (matchCI "Program Name".data r2).elim false fun r3 =>
        (ws1 r3).elim false fun r4 =>
          (matchCI "Updated".data r4).elim false fun r5 =>
            (ws1 r5).elim false fun r6 =>
              (matchCI "Page(s)".data r6).isSome

/-- Scanning search for the TOC header line. -/
def tocHeaderSearchL (prev : Option Char) : List Char → Bool
  | [] => false
  | c :: cs =>
    (boundaryBefore prev && tocHeaderAt (c :: cs)) || tocHeaderSearchL (some c) cs

/-- The TOC column-header detector of `build_toc_index`. -/
def tocHeaderSearch (t : String) : Bool :=
  tocHeaderSearchL none t.data

/-- Search of `\bVolkswagen New Vehicle Program Bulletins\b` (ci). -/
def bulletinAt (cs : List Char) : Bool :=
  (matchCI "Volkswagen New Vehicle Program Bulletins".data cs).elim false boundaryAfter

/-- Scanning search for the bulletin banner skipped inside the TOC. -/
def bulletinSearchL (prev : Option Char) : List Char → Bool
  | [] => false
  | c :: cs =>
    (boundaryBefore prev && bulletinAt (c :: cs)) || bulletinSearchL (some c) cs

/-- The bulletin banner detector of `build_toc_index`. -/
def bulletinSearch (t : String) : Bool :=
  bulletinSearchL none t.data

/-- Candidates of `\d{1,2}` returning (digits, rest), greedy first. -/
def digits12Cands : List Char → List (List Char × List Char)
  | a :: b :: r =>
    (if a.isDigit && b.isDigit then [([a, b], r)] else []) ++
    (if a.isDigit then [([a], b :: r)] else [])
  | [a] => if a.isDigit then [([a], [])] else []
  | [] => []

/-- Candidates of the TOC date token `\d{1,2}[/\-]\d{1,2}[/\-]\d{4}`,
returning (matched text, rest) in backtracking order. -/
def dateTokCands (cs : List Char) : List (List Char × List Char) :=
  (digits12Cands cs).flatMap fun p1 =>
    match p1.2 with
    | s1 :: r2 =>
      if isDateSep s1 then
        (digits12Cands r2).flatMap fun p2 =>
          match p2.2 with
          | s2 :: r4 =>
            if isDateSep s2 then
              match grabDigits 4 r4 with
              | some p3 => [(p1.1 ++ s1 :: p2.1 ++ s2 :: p3.1, p3.2)]
              | none => []
            else []
          | [] => []
      else []
    | [] => []

/-- Greedy `([\d\-]+)` page-list group. -/
def pagesRun (cs : List Char) : Option String :=
  let run := cs.takeWhile (fun c => c.isDigit || c = '-')
  if run = [] then none else some ⟨run⟩

/-- Scan for the lazy middle of the TOC row pattern
`\s+(.*?)\s+(\d{1,2}[/\-]\d{1,2}[/\-]\d{4})\s+([\d\-]+)` after the program id:
`accRev` holds the reversed name group so far, `prev` is the character at the
candidate-whitespace position before the date, `cs` the rest.  The scan tries
date positions left to right (the lazy `(.*?)`). -/
def tocRowScan : List Char → Char → List Char → Option (String × String × String)
  | accRev, prev, cs =>
    match
      (if isPyWS prev ∧ ¬ accRev.contains '\n' then
        firstSome
          (fun dp =>
            (ws1 dp.2).bind fun r6 =>
              (pagesRun r6).map fun pstr => (String.mk accRev.reverse, String.mk dp.1, pstr))
          (dateTokCands cs)
      else none)
    with
    | some v => some v
    | none =>
      match cs with
      | [] => none
      | c :: cs2 => tocRowScan (prev :: accRev) c cs2

/-- The TOC row pattern after a matched program id: requires one leading
whitespace character, then scans for name/date/pages. -/
def tocRowAfterPid : List Char → Option (String × String × String)
  | r0 :: r1 :: cs => if isPyWS r0 then tocRowScan [] r1 cs else none
  | _ => none

/-- Search of the TOC row pattern
`\b(V\d{2}[A-Z]{3}\d{2})\b\s+(.*?)\s+(\d{1,2}[/\-]\d{1,2}[/\-]\d{4})\s+([\d\-]+)`,
returning (program id, raw name group, date text, pages text). -/
def tocRowSearchL (prev : Option Char) : List Char → Option (String × String × String × String)
  | [] => none
  | c :: cs =>
    match
      (if boundaryBefore prev then
        (programIdAt (c :: cs)).bind fun pid =>
          (tocRowAfterPid ((c :: cs).drop 8)).map fun v => (pid, v)
      else none)
    with
    | some v => some v
    | none => tocRowSearchL (some c) cs

/-- Search of the TOC row pattern over a line. -/
def tocRowSearch (t : String) : Option (String × String × String × String) :=
  tocRowSearchL none t.data

/-- Python `str.split(c)` (always at least one piece). -/
def splitOnCharL (c : Char) (cs : List Char) : List (List Char) :=
  cs.foldr
    (fun ch acc =>
      match acc with
      | cur :: rest => if ch = c then [] :: cur :: rest else (ch :: cur) :: rest
      | [] => [[ch]])
    [[]]

/-- Python `str.split(c)` on strings. -/
def splitOnChar (c : Char) (s : String) : List String :=
  (splitOnCharL c s.data).map String.mk

/-- Python `str.split(c, 1)`: split at the first occurrence only, `none` when
the character is absent. -/
def splitOnce (c : Char) (s : String) : Option (String × String) :=
  let before := s.data.takeWhile (· ≠ c)
  if before.length < s.data.length then
    some (⟨before⟩, ⟨s.data.drop (before.length + 1)⟩)
  else none

/-- Page-range expansion of `build_toc_index`: comma-separated chunks, `A-B`
expands to every integer in `[A, B]`, malformed chunks are skipped. -/
def parsePages (pages : String) : List Nat :=
  (splitOnChar ',' pages).flatMap fun chunkRaw =>
    let chunk := pyStrip chunkRaw
    if containsChar chunk '-' then
      match splitOnce '-' chunk with
      | some ab =>
        match pyDigitsToNat ab.1.data, pyDigitsToNat ab.2.data with
        | some ai, some bi => List.range' ai (bi + 1 - ai)
        | _, _ => []
      | none => []
    else
      match pyDigitsToNat chunk.data with
      | some n => [n]
      | none => []

/-- Function `build_toc_index`: iterate lines in stored (insertion) order,
arm on the column-header line, then collect every matching TOC row. -/
def build_toc_index (lines : List ((Nat × Nat) × String)) : List TocEntry :=
  (lines.foldl
    (fun (st : Bool × List TocEntry) kv =>
      let t := pyStrip kv.2
      if tocHeaderSearch t then (true, st.2)
      else if st.1 then
        if bulletinSearch t then st
        else
          match tocRowSearch t with
          | some v =>
            (st.1, st.2 ++
              [⟨v.1, pyStrip v.2.1, iso_date_or_none v.2.2.1, parsePages v.2.2.2⟩])
          | none => st
      else st)
    (false, [])).2

/-- The name-normalization table of `normalize_rebate_name` (lower-cased,
dash-normalized keys to canonical section labels). -/
def rebateNameMap : List (String × String) :=
  [ ("dealer bonus - ev", "Dealer Bonus - EV"),
    ("dealer bonus", "Dealer Bonus"),
    ("retail customer bonus - ev", "Retail Customer Bonus - EV"),
    ("retail customer bonus", "Retail Customer Bonus"),
    ("apr customer bonus – ev", "APR Customer Bonus - EV"),
    ("apr customer bonus - ev", "APR Customer Bonus - EV"),
    ("apr customer bonus - labor day", "APR Customer Bonus - Labor Day"),
    ("lease customer bonus - labor day", "Lease Customer Bonus - Labor Day"),
    ("lease dealer bonus - ev", "Lease Dealer Bonus"),
    ("vfi program", "VFI Program"),
    ("final pay", "Final Pay"),
    ("sales elite program", "Sales Elite Program"),
    ("tiguan loyalty code bonus", "Tiguan Loyalty Code Bonus"),
    ("volkswagen private incentive code bonus", "Volkswagen Private Incentive Code Bonus"),
    ("target achievement bonus", "Target Achievement Bonus") ]

/-- Replace en and em dashes by hyphens (the two `str.replace` calls). -/
def replaceDashes (s : String) : String :=
  ⟨s.data.map (fun c => if c = '–' || c = '—' then '-' else c)⟩

/-- Function `normalize_rebate_name`. -/
def normalize_rebate_name (name : Option String) : Option String :=
  match name with
  | none => none
  | some nm =>
    if nm = "" then none
    else
      let n := replaceDashes (pyLower nm)
      some (((rebateNameMap.find? (fun p => p.1 = n)).map Prod.snd).getD nm)

/-- Function `choose_toc_for_page`: entries covering the page, preferring one
whose name and the hint contain each other (as lower-cased substrings). -/
def choose_toc_for_page (toc : List TocEntry) (page : Nat) (hint : Option String) :
    Option TocEntry :=
  let candidates := toc.filter (fun e => e.pages.contains page)
  match candidates with
  | [] => none
  | _ =>
    if strTruthy hint then
      let rh := pyLower (hint.getD "")
      let tagged := candidates.filter fun e =>
        containsSub rh (pyLower e.program_name) || containsSub (pyLower e.program_name) rh
      match tagged with
      | e :: _ => some e
      | [] => candidates.head?
    else candidates.head?

/-! ## Model detection helpers -/

/-- Map `MODEL_NORMALIZER` from `extraction/patterns.py`, in source order. -/
def MODEL_NORMALIZER : List (String × String) :=
  [ ("id.4", "ID.4"),
    ("id 4", "ID.4"),
    ("id. buzz", "ID. Buzz"),
    ("id buzz", "ID. Buzz"),
    ("tiguan", "Tiguan"),
    ("atlas", "Atlas"),
    ("atlas cross sport", "Atlas Cross Sport"),
    ("taos", "Taos"),
    ("golf gti", "Golf GTI"),
    ("jetta gli", "Jetta GLI"),
    ("jetta", "Jetta"),
    ("atlas peak edition", "Atlas Peak Edition") ]

/-- List `MODEL_KEYS` (the normalizer's keys). -/
def MODEL_KEYS : List String :=
  MODEL_NORMALIZER.map Prod.fst

/-- Python `sorted(MODEL_KEYS, key=len, reverse=True)`: stable descending by length. -/
def modelKeysByLen : List String :=
  MODEL_KEYS.insertionSort (fun a b => b.length ≤ a.length)

/-- Python `str.find`: first index of the substring, `-1` when absent. -/
def pyFindAux (pat : List Char) : Nat → List Char → Option Nat
  | i, [] => if (matchCS pat []).isSome then some i else none
  | i, c :: cs => if (matchCS pat (c :: cs)).isSome then some i else pyFindAux pat (i + 1) cs

/-- Python `str.find` on strings. -/
def pyFind (s pat : String) : Int :=
  (pyFindAux pat.data 0 s.data).elim (-1) Int.ofNat

/-- Try `\bMY\s?(\d{2})\b` at one position (alternative 1 of the year regex
of `detect_model_year_model_trim`). -/
def myYearAt (cs : List Char) : Option Nat :=
  (matchCI "MY".data cs).bind fun r0 =>
    let tryDigits := fun (r : List Char) =>
      match grabDigits 2 r with
      | some p => if boundaryAfter p.2 then some (2000 + digitsVal p.1) else none
      | none => none
    match r0 with
    | c :: r1 =>
      if isPyWS c then
        match tryDigits r1 with
        | some v => some v
        | none => tryDigits r0
      else tryDigits r0
    | [] => none

/-- Try `\b(20(2[3-9]|3[0-9]))\b` at one position (alternative 2). -/
def year20At (cs : List Char) : Option Nat :=
  match cs with
  | '2' :: '0' :: a :: b :: r =>
    if ((a = '2' && '3' ≤ b && b ≤ '9') || (a = '3' && b.isDigit)) && boundaryAfter r then
      some (2000 + digitVal a * 10 + digitVal b)
    else none
  | _ => none

/-- Search of `\bMY\s?(\d{2})\b|\b(20(2[3-9]|3[0-9]))\b` (ci). -/
def myYearSearchL (prev : Option Char) : List Char → Option Nat
  | [] => none
  | c :: cs =>
    match
      (if boundaryBefore prev then
        match myYearAt (c :: cs) with
        | some v => some v
        | none => year20At (c :: cs)
      else none)
    with
    | some v => some v
    | none => myYearSearchL (some c) cs

/-- The model-keyword loop of `detect_model_year_model_trim`: longest keys
first, skip a candidate normalizing to the noise token. -/
def findModelKey (low : String) : List String → Option String
  | [] => none
  | key :: rest =>
    if containsSub low key then
      let cand := ((MODEL_NORMALIZER.find? (fun p => p.1 = key)).map Prod.snd).getD key
      if pyLower cand ≠ "bonus" then some cand else findModelKey low rest
    else findModelKey low rest

/-- Dash set of the trailing-dash strip in `parse_trim_and_amounts_from_line`
and of the trim strip set. -/
def isDash3 (c : Char) : Bool :=
  c = '-' || c = '–' || c = '—'

/-- Function `detect_model_year_model_trim`: (year, model, trim) from one line
(the non-table fallback). -/
def detect_model_year_model_trim (t : String) : Option Nat × Option String × Option String :=
  let year := myYearSearchL none t.data
  let low := pyLower t
  let model := findModelKey low modelKeysByLen
  match model with
  | none => (year, none, none)
  | some m =>
    let idx := pyFind low (pyLower m)
    let right := pySliceFrom t (idx + Int.ofNat m.data.length)
    let right1 := (splitOnChar '$' right).headD ""
    let right2 := (splitOnChar '(' right1).headD ""
    let right3 := pyStripChars [' ', '-', '–', '—', '\t'] right2
    let trim1 := pyStrip right3
    let trim2 := if trim1 = "" then none else some trim1
    let trim3 :=
      match trim2 with
      | some tv => if pyStartsWith (pyUpper tv) "MY" then none else some tv
      | none => none
    (year, some m, trim3)

/-- The single trailing-dash removal `re.sub(r"[-–—]\s*$", "", left)`. -/
def subTrailingDash (s : String) : String :=
  let revNoWS := s.data.reverse.dropWhile isPyWS
  match revNoWS with
  | c :: rest => if isDash3 c then ⟨rest.reverse⟩ else s
  | [] => s

/-- Function `parse_trim_and_amounts_from_line`: trim text left of the first
dollar sign (noise discarded), amounts from every money match on the line. -/
def parse_trim_and_amounts_from_line (t : String) : Option String × List Nat :=
  if !containsChar t '$' then (none, [])
  else
    let left0 := (splitOnChar '$' t).headD ""
    let left1 :=
      if bonusSolo left0 || bonusWithDates left0 || dateRangeLabel left0 then "" else left0
    let left2 := pyStripChars ['•', '-', '–', '—', ' ', '\t'] (subTrailingDash left1)
    let trim0 := pyStrip left2
    let trim := if trim0 = "" then none else some trim0
    let amts := (moneyFindAll t).filterMap normalize_amount
    (trim, amts)

/-- Function `split_models`: replace conjunction, slash and comma separators
by a bar and split. -/
def modelSepAt (cs : List Char) : Option (List Char) :=
  match
    (match ws1 cs with
     | some r1 =>
       match r1 with
       | '&' :: r2 => ws1 r2
       | _ => none
     | none => none)
  with
  | some r3 => some r3
  | none =>
    match wsMany cs with
    | '/' :: r2 => some (wsMany r2)
    | _ =>
      match cs with
      | ',' :: r => some (wsMany r)
      | _ => none

/-- The substitution pass of `split_models`
(`re.sub(r"\s+&\s+|\s*/\s*|,\s*", "|", raw)`). -/
def splitModelsSub : Nat → List Char → List Char
  | 0, cs => cs
  | _ + 1, [] => []
  | fuel + 1, c :: cs =>
    match modelSepAt (c :: cs) with
    | some r => '|' :: splitModelsSub fuel r
    | none => c :: splitModelsSub fuel cs

/-- Function `split_models`. -/
def split_models (raw : String) : List String :=
  let t : String := ⟨splitModelsSub raw.data.length raw.data⟩
  let parts := ((splitOnChar '|' t).map pyStrip).filter (· ≠ "")
  if parts = [] then [pyStrip raw] else parts

/-! ## Exclusion capture (`_normalize_pdf_text`, `_extract_exclusions_any`) -/

/-- The narrow whitespace class `_WS` (`[ \t   ]`). -/
def isNarrowWS (c : Char) : Bool :=
  c = ' ' || c = '\t' || c = '\u00A0' || c = '\u2007' || c = '\u202F'

/-- The dash class `_DASH` (`[-‐‑‒–—]`). -/
def isDash6 (c : Char) : Bool :=
  c = '-' || c = '\u2010' || c = '\u2011' || c = '\u2012' || c = '\u2013' || c = '\u2014'

/-- Substitution `re.sub(r"\r?\n+", " ", s)`. -/
def sub1NL : Nat → List Char → List Char
  | 0, cs => cs
  | _ + 1, [] => []
  | fuel + 1, c :: cs =>
    if c = '\r' then
      match cs with
      | '\n' :: r => ' ' :: sub1NL fuel (r.dropWhile (· = '\n'))
      | _ => c :: sub1NL fuel cs
    else if c = '\n' then ' ' :: sub1NL fuel (cs.dropWhile (· = '\n'))
    else c :: sub1NL fuel cs

/-- Substitution `re.sub(r"\s+", " ", s)` (whitespace-run collapse). -/
def collapseWSAux : Nat → List Char → List Char
  | 0, cs => cs
  | _ + 1, [] => []
  | fuel + 1, c :: cs =>
    if isPyWS c then ' ' :: collapseWSAux fuel (cs.dropWhile isPyWS)
    else c :: collapseWSAux fuel cs

/-- Substitution `re.sub(rf"{_DASH}\s+", "-", s)`. -/
def sub4Dash : Nat → List Char → List Char
  | 0, cs => cs
  | _ + 1, [] => []
  | fuel + 1, c :: cs =>
    if isDash6 c then
      match cs with
      | c2 :: _ =>
        if isPyWS c2 then '-' :: sub4Dash fuel (cs.dropWhile isPyWS)
        else c :: sub4Dash fuel cs
      | [] => [c]
    else c :: sub4Dash fuel cs

/-- Substitution `re.sub(r"\s*([.])\s*", r"\1 ", s)`. -/
def sub5Dot : Nat → List Char → List Char
  | 0, cs => cs
  | _ + 1, [] => []
  | fuel + 1, c :: cs =>
    if c = '.' then '.' :: ' ' :: sub5Dot fuel (cs.dropWhile isPyWS)
    else if isPyWS c then
      let rest := (c :: cs).dropWhile isPyWS
      match rest with
      | '.' :: r2 => '.' :: ' ' :: sub5Dot fuel (r2.dropWhile isPyWS)
      | _ => ((c :: cs).takeWhile isPyWS) ++ sub5Dot fuel rest
    else c :: sub5Dot fuel cs

/-- Punctuation class of `re.sub(r"\s+([,;:.)\]])", r"\1", s)`. -/
def punct6 (c : Char) : Bool :=
  c = ',' || c = ';' || c = ':' || c = '.' || c = ')' || c = ']'

/-- Substitution `re.sub(r"\s+([,;:.)\]])", r"\1", s)`. -/
def sub6Punct : Nat → List Char → List Char
  | 0, cs => cs
  | _ + 1, [] => []
  | fuel + 1, c :: cs =>
    if isPyWS c then
      let run := (c :: cs).takeWhile isPyWS
      let rest := (c :: cs).dropWhile isPyWS
      match rest with
      | p :: r2 => if punct6 p then p :: sub6Punct fuel r2 else run ++ sub6Punct fuel rest
      | [] => run
    else c :: sub6Punct fuel cs

/-- Substitution `re.sub(r"([(])\s+", r"\1", s)`. -/
def sub7Paren : Nat → List Char → List Char
  | 0, cs => cs
  | _ + 1, [] => []
  | fuel + 1, c :: cs =>
    if c = '(' then
      match cs with
      | c2 :: _ =>
        if isPyWS c2 then '(' :: sub7Paren fuel (cs.dropWhile isPyWS)
        else '(' :: sub7Paren fuel cs
      | [] => ['(']
    else c :: sub7Paren fuel cs

/-- Function `_normalize_pdf_text`. -/
def _normalize_pdf_text (s : String) : String :=
  if s = "" then ""
  else
    let l1 := sub1NL s.data.length s.data
    let l2 := l1.map fun c => if isNarrowWS c then ' ' else c
    let l3 := pyStripL (collapseWSAux l2.length l2)
    let l4 := sub4Dash l3.length l3
    let l5 := sub5Dot l4.length l4
    let l6 := sub6Punct l5.length l5
    let l7 := sub7Paren l6.length l6
    ⟨pyStripL l7⟩

/-- Narrow whitespace `{_WS}+` (greedy). -/
def nw1 : List Char → Option (List Char)
  | [] => none
  | c :: r => if isNarrowWS c then some (r.dropWhile isNarrowWS) else none

/-- The class run `[:\s]+` (greedy). -/
def colonWS1 : List Char → Option (List Char)
  | [] => none
  | c :: r =>
    if c = ':' || isPyWS c then some (r.dropWhile (fun x => x = ':' || isPyWS x))
    else none

/-- Greedy optional `s?` (case-insensitive) with full-continuation backtrack. -/
def exSuffixS {α : Type} (r : List Char) (k : List Char → Option α) : Option α :=
  match r with
  | c :: rest =>
    if c.toLower = 's' then
      match k rest with
      | some v => some v
      | none => k r
    else k r
  | [] => k r

/-- Group `(?P<list>[^)]+)\)`: the run before a required closing paren,
returning (group, rest after the paren). -/
def parenList (cs : List Char) : Option (String × List Char) :=
  let run := cs.takeWhile (· ≠ ')')
  if run = [] then none
  else
    match cs.drop run.length with
    | ')' :: rest => some (⟨run⟩, rest)
    | _ => none

/-- Terminator class of `(?:[.;]|\))`. -/
def isTermBW (c : Char) : Bool :=
  c = '.' || c = ';' || c = ')'

/-- Group `(?P<list>.+?)(?:[.;]|\)|$)`: lazy run up to the first terminator
or the end, returning (group, rest after the consumed terminator). -/
def lazyList (cs : List Char) : Option (String × List Char) :=
  let run := cs.takeWhile (fun c => !isTermBW c && c ≠ '\n')
  if run = [] then none
  else
    match cs.drop run.length with
    | t :: rest => if isTermBW t then some (⟨run⟩, rest) else none
    | [] => some (⟨run⟩, [])

/-- Pattern `\(\s*excludes?\s+(?P<list>[^)]+)\)` at one position. -/
def p1At : List Char → Option (String × List Char)
  | '(' :: r0 =>
    (matchCI "exclude".data (wsMany r0)).bind fun r2 =>
      exSuffixS r2 fun r3 => (ws1 r3).bind parenList
  | _ => none

/-- Pattern `\(\s*except\s+(?P<list>[^)]+)\)` at one position. -/
def p2At : List Char → Option (String × List Char)
  | '(' :: r0 =>
    (matchCI "except".data (wsMany r0)).bind fun r2 => (ws1 r2).bind parenList
  | _ => none

/-- Pattern `\(\s*not{_WS}+eligible[:\s]+(?P<list>[^)]+)\)` at one position. -/
def p3At : List Char → Option (String × List Char)
  | '(' :: r0 =>
    (matchCI "not".data (wsMany r0)).bind fun r2 =>
      (nw1 r2).bind fun r3 =>
        (matchCI "eligible".data r3).bind fun r4 => (colonWS1 r4).bind parenList
  | _ => none

/-- Pattern `{_DASH}\s*excludes?\s+(?P<list>.+?)(?:[.;]|\)|$)` at one
position. -/
def p4At : List Char → Option (String × List Char)
  | c :: r0 =>
    if isDash6 c then
      (matchCI "exclude".data (wsMany r0)).bind fun r2 =>
        exSuffixS r2 fun r3 => (ws1 r3).bind lazyList
    else none
  | [] => none

/-- Pattern `\bexcludes?\b\s+(?P<list>.+?)(?:[.;]|\)|$)` at one position (the
trailing `\b` is subsumed by `\s+`). -/
def p5At (cs : List Char) : Option (String × List Char) :=
  (matchCI "exclude".data cs).bind fun r2 =>
    exSuffixS r2 fun r3 => (ws1 r3).bind lazyList

/-- Pattern `\bexcept\b\s+(?P<list>.+?)(?:[.;]|\)|$)` at one position. -/
def p6At (cs : List Char) : Option (String × List Char) :=
  (matchCI "except".data cs).bind fun r2 => (ws1 r2).bind lazyList

/-- Pattern `\bnot{_WS}+eligible[:\s]+\s*(?P<list>.+?)(?:[.;]|\)|$)` at one
position. -/
def p7At (cs : List Char) : Option (String × List Char) :=
  (matchCI "not".data cs).bind fun r1 =>
    (nw1 r1).bind fun r2 =>
      (matchCI "eligible".data r2).bind fun r3 =>
        (colonWS1 r3).bind fun r4 => lazyList (wsMany r4)

/-- Non-overlapping `finditer` loop for a pattern with no leading boundary. -/
def finditerNB (pat : List Char → Option (String × List Char)) :
    Nat → List Char → List String
  | 0, _ => []
  | _ + 1, [] => []
  | fuel + 1, c :: cs =>
    match pat (c :: cs) with
    | some g => g.1 :: finditerNB pat fuel g.2
    | none => finditerNB pat fuel cs

/-- Non-overlapping `finditer` loop for a pattern needing `\b` before it; a
match always ends at a terminator (a non-word char, represented after a match
by `')'`) or at the end of input. -/
def finditerWB (pat : List Char → Option (String × List Char)) :
    Nat → Option Char → List Char → List String
  | 0, _, _ => []
  | _ + 1, _, [] => []
  | fuel + 1, prev, c :: cs =>
    match (if boundaryBefore prev then pat (c :: cs) else none) with
    | some g => g.1 :: finditerWB pat fuel (some ')') g.2
    | none => finditerWB pat fuel (some c) cs

/-- All list-group hits of the seven `_MODEL_EXCLUSION_PATTERNS`, pattern by
pattern in source order, each scanned with `finditer`. -/
def exclPatternHits (t : String) : List String :=
  let cs := t.data
  let n := cs.length
  finditerNB p1At n cs ++ finditerNB p2At n cs ++ finditerNB p3At n cs ++
    finditerNB p4At n cs ++ finditerWB p5At n none cs ++ finditerWB p6At n none cs ++
    finditerWB p7At n none cs

/-- Prefix cut `re.split(r"(?:\)|;|\.)(?:\s|$)", raw_list)[0]`. -/
def listCutL : List Char → List Char
  | [] => []
  | c :: cs =>
    if (c = ')' || c = ';' || c = '.') &&
        (match cs with
         | [] => true
         | d :: _ => isPyWS d) then []
    else c :: listCutL cs

/-- One separator match of `_EXCL_SPLIT`
(`\s*(?:,|{_WS}+and{_WS}+|{_WS}*&{_WS}*|/)\s*`, ci) at one position,
returning the rest after the whole separator. -/
def exclSplitSepAt (cs : List Char) : Option (List Char) :=
  let wsCount := (cs.takeWhile isPyWS).length
  firstSome
    (fun wsn =>
      let rest := cs.drop wsn
      let alt1 : Option (List Char) :=
        match rest with
        | ',' :: r => some r
        | _ => none
      let alt2 : Option (List Char) :=
        (nw1 rest).bind fun r1 => (matchCI "and".data r1).bind nw1
      let alt3 : Option (List Char) :=
        match rest.dropWhile isNarrowWS with
        | '&' :: r2 => some (r2.dropWhile isNarrowWS)
        | _ => none
      let alt4 : Option (List Char) :=
        match rest with
        | '/' :: r => some r
        | _ => none
      (((alt1.orElse fun _ => alt2).orElse fun _ => alt3).orElse fun _ => alt4).map wsMany)
    ((List.range (wsCount + 1)).reverse)

/-- The `re.split` loop of `_EXCL_SPLIT`. -/
def exclSplitAux : Nat → List Char → List Char → List (List Char)
  | 0, accRev, cs => [accRev.reverse ++ cs]
  | _ + 1, accRev, [] => [accRev.reverse]
  | fuel + 1, accRev, c :: cs =>
    match exclSplitSepAt (c :: cs) with
    | some rest => accRev.reverse :: exclSplitAux fuel [] rest
    | none => exclSplitAux fuel (c :: accRev) cs

/-- Split a string on `_EXCL_SPLIT` separators. -/
def exclSplit (s : String) : List String :=
  (exclSplitAux s.data.length [] s.data).map String.mk

/-- The prefix removal `re.sub(r"^(the|all)\s+", "", x, flags=IGNORECASE)`. -/
def dropTheAll (cs : List Char) : List Char :=
  let tryOne := fun (w : String) => (matchCI w.data cs).bind ws1
  (((tryOne "the").orElse fun _ => tryOne "all").getD cs)

/-- Function `_clean_excl_item`. -/
def _clean_excl_item (x : String) : String :=
  let x1 := pyStripChars [' ', ',', ';', '.'] x
  let x2 := collapseWSAux x1.data.length x1.data
  let x3 := sub5Dot x2.length x2
  let x4 := dropTheAll x3
  ⟨pyStripL x4⟩

/-- Per-hit processing of `_extract_exclusions_any`: cut the raw list, split
it on separators, keep parts with non-blank strips, clean each item. -/
def processRawList (raw : String) : List String :=
  let cut : String := ⟨listCutL raw.data⟩
  let parts := (exclSplit cut).filter fun p => pyStrip p ≠ ""
  parts.filterMap fun p =>
    let item := _clean_excl_item p
    if item ≠ "" then some item else none

/-- Case-insensitive first-occurrence dedup of the found items. -/
def dedupCIAux (seen : List String) : List String → List String
  | [] => []
  | x :: xs =>
    let k := pyLower x
    if seen.contains k then dedupCIAux seen xs else x :: dedupCIAux (k :: seen) xs

/-- Function `_extract_exclusions_any`: normalize, run the seven patterns,
clean, dedup, join with commas; absent when nothing is found. -/
def _extract_exclusions_any (text : String) : Option String :=
  if text = "" then none
  else
    let t := _normalize_pdf_text text
    let found := (exclPatternHits t).flatMap processRawList
    if found = [] then none
    else
      let out := dedupCIAux [] found
      if out = [] then none else some (String.intercalate ", " out)

/-- Function `parse_exclusions_from_text` (wrapper). -/
def parse_exclusions_from_text (text : String) : Option String :=
  _extract_exclusions_any text

/-- Function `exclusions_from_adjacent_lines`: search up to `window` lines
above and below on the same page, nearer lines first, previous before next. -/
def exclusions_from_adjacent_lines (page line_id : Nat)
    (lines : List ((Nat × Nat) × String)) (window : Nat) : Option String :=
  let neighborIds :=
    (((lines.map Prod.fst).filter (fun k => k.1 = page)).map Prod.snd).insertionSort (· ≤ ·)
  if neighborIds.contains line_id then
    let idx := neighborIds.indexOf line_id
    firstSome
      (fun d =>
        let dd := d + 1
        let hit := fun (lid : Nat) => _extract_exclusions_any (lookupLine lines (page, lid))
        match (if dd ≤ idx then hit (neighborIds.getD (idx - dd) 0) else none) with
        | some v => some v
        | none =>
          if idx + dd < neighborIds.length then hit (neighborIds.getD (idx + dd) 0)
          else none)
      (List.range window)
  else none

/-! ## The context-tracking line walker (`extract`) -/

/-- The mutable extraction context of `extract` (all the `current_*` and
program/date locals of the walk). -/
structure Ctx where
  current_rebate_type : Option String := none
  program_id : Option String := none
  published_date : Option String := none
  program_start_date : Option String := none
  program_end_date : Option String := none
  current_model_year_ctx : Option Nat := none
  current_model_ctx : Option String := none
  current_model_exclusions_ctx : Option String := none
  deriving Repr, DecidableEq

/-- The page-start preload block of the walk: fill program id, published date
and rebate type from the TOC entry covering the page (keeping prior values
when the lookup fails), then reset the three model/exclusion context fields. -/
def pageStartUpdate (toc : List TocEntry) (page : Nat) (ctx : Ctx) : Ctx :=
  let ctx1 :=
    match choose_toc_for_page toc page ctx.current_rebate_type with
    | some hit =>
      { ctx with
        program_id := pyOrStr (some hit.program_id) ctx.program_id,
        published_date := pyOrStr hit.updated_iso ctx.published_date,
        current_rebate_type :=
          pyOrStr (normalize_rebate_name (some hit.program_name)) ctx.current_rebate_type }
    | none => ctx
  { ctx1 with
    current_model_year_ctx := none,
    current_model_ctx := none,
    current_model_exclusions_ctx := none }

/-- The exclusion-resolution chain shared by the emitting branches: inline
text first, else the adjacent-line window, else the header-level context. -/
def exclFinalFor (lines : List ((Nat × Nat) × String)) (page line_id : Nat)
    (ctx : Ctx) (txt_raw : String) : Option String :=
  let excl_inline := parse_exclusions_from_text txt_raw
  let excl_adj :=
    if !strTruthy excl_inline then exclusions_from_adjacent_lines page line_id lines 2
    else none
  pyOrStr excl_inline (pyOrStr excl_adj ctx.current_model_exclusions_ctx)

/-- One row emitted by the money-range branch (confidence 0.7, no trim). -/
def mkRangeKV (ctx : Ctx) (page : Nat) (override : Bool) (excl : Option String)
    (amt : Nat) : KV :=
  { rebate_type := ctx.current_rebate_type,
    program_id := ctx.program_id,
    published_date := ctx.published_date,
    program_start_date := ctx.program_start_date,
    program_end_date := ctx.program_end_date,
    model_year := ctx.current_model_year_ctx,
    model := some (if override then "all" else pyOrStrVal ctx.current_model_ctx "all"),
    trim := none,
    exclusions := excl,
    amount_dollars := some amt,
    currency := "USD",
    page := page,
    confidence := Rat.divInt 7 10 }

/-- The `emit_amt` closure of the range branch: zero and absent amounts are
dropped (`if not amt: return`). -/
def emitAmt (ctx : Ctx) (page : Nat) (override : Bool) (excl : Option String) :
    Option Nat → List KV
  | some a => if a ≠ 0 then [mkRangeKV ctx page override excl a] else []
  | none => []

/-- The rows of the money-range branch: the low endpoint, then the high one
when it is truthy and differs (`emit_amt(lo); if hi and hi != lo:
emit_amt(hi)`). -/
def rangeRows (ctx : Ctx) (page : Nat) (override : Bool) (excl : Option String)
    (lo hi : Option Nat) : List KV :=
  emitAmt ctx page override excl lo ++
    (if hi.elim false (· ≠ 0) ∧ hi ≠ lo then emitAmt ctx page override excl hi else [])

/-- One row emitted by the table path (active model header, confidence 0.9). -/
def mkTableKV (ctx : Ctx) (page : Nat) (m : String) (trim_val excl : Option String)
    (a : Nat) : KV :=
  { rebate_type := ctx.current_rebate_type,
    program_id := ctx.program_id,
    published_date := ctx.published_date,
    program_start_date := ctx.program_start_date,
    program_end_date := ctx.program_end_date,
    model_year := ctx.current_model_year_ctx,
    model := some m,
    trim := trim_val,
    exclusions := excl,
    amount_dollars := some a,
    currency := "USD",
    page := page,
    confidence := Rat.divInt 9 10 }

/-- One row emitted by the generic fallback (confidence 0.9 when both a model
and a non-zero amount were resolved, 0.6 otherwise). -/
def mkFallbackKV (ctx : Ctx) (page : Nat) (my : Option Nat) (mdel : String)
    (trim excl : Option String) (a : Nat) : KV :=
  { rebate_type := ctx.current_rebate_type,
    program_id := ctx.program_id,
    published_date := ctx.published_date,
    program_start_date := ctx.program_start_date,
    program_end_date := ctx.program_end_date,
    model_year := my,
    model := some mdel,
    trim := trim,
    exclusions := excl,
    amount_dollars := some a,
    currency := "USD",
    page := page,
    confidence := if mdel ≠ "" ∧ a ≠ 0 then Rat.divInt 9 10 else Rat.divInt 6 10 }

/-- The generic dollar-amount branch (table path first when a model header is
active and no "all vehicles" phrase is present, else the inline fallback). -/
def dollarBranch (lines : List ((Nat × Nat) × String)) (page line_id : Nat)
    (ctx : Ctx) (txt_raw txt : String) : Ctx × List KV :=
  if containsChar txt '$' then
    let override := allVehiclesSearch txt
    let tablePath : Option (List KV) :=
      match ctx.current_model_ctx with
      | some m =>
        if m ≠ "" ∧ ¬ override then
          let tr := parse_trim_and_amounts_from_line txt
          if tr.2 ≠ [] then
            let excl_final := exclFinalFor lines page line_id ctx txt_raw
            let trim_val :=
              match tr.1 with
              | some tv =>
                if pyStartsWith (pyLower tv) "all trims" then some "All Trims" else some tv
              | none => none
            some (tr.2.map fun a => mkTableKV ctx page m trim_val excl_final a)
          else none
        else none
      | none => none
    match tablePath with
    | some rows => (ctx, rows)
    | none =>
      let amounts := (moneyFindAll txt).filterMap normalize_amount
      if amounts = [] then (ctx, [])
      else
        let dmt := detect_model_year_model_trim txt
        let model :=
          match dmt.2.1 with
          | some m => if pyLower m = "bonus" then none else some m
          | none => none
        let excl_final := exclFinalFor lines page line_id ctx txt_raw
        let targets : List String :=
          if override then ["all"]
          else
            match model with
            | some m =>
              if m ≠ "" then split_models m
              else pyOrStrVal ctx.current_model_ctx "all" :: []
            | none =>
              match ctx.current_model_ctx with
              | some cm => if cm ≠ "" then [cm] else ["all"]
              | none => ["all"]
        (ctx,
          amounts.flatMap fun a =>
            targets.map fun mdel =>
              mkFallbackKV ctx page (pyOrNat dmt.1 ctx.current_model_year_ctx) mdel
                dmt.2.2 excl_final a)
  else (ctx, [])

/-- The model-keyword loop of the model-header branch (no noise filter). -/
def findNormModel (low : String) : Option String :=
  (modelKeysByLen.find? (fun key => containsSub low key)).map fun key =>
    ((MODEL_NORMALIZER.find? (fun p => p.1 = key)).map Prod.snd).getD key

/-- Per-line dispatch of the walk: the ordered classifier chain from the
noise filters down to the dollar branches.  Returns the new context and the
rows emitted by this line. -/
def handleLine (toc : List TocEntry) (lines : List ((Nat × Nat) × String))
    (page line_id : Nat) (ctx : Ctx) : Ctx × List KV :=
  let txt_raw := lookupLine lines (page, line_id)
  let txt := pyStrip txt_raw
  if bonusSolo txt || bonusWithDates txt || dateRangeLabel txt then (ctx, [])
  else
    match rebateHeadingSearch txt with
    | some h =>
      let ctx1 := { ctx with current_rebate_type := normalize_rebate_name (some (pyStrip h)) }
      let ctx2 :=
        match choose_toc_for_page toc page ctx1.current_rebate_type with
        | some hit =>
          { ctx1 with
            program_id := pyOrStr (some hit.program_id) ctx1.program_id,
            published_date := pyOrStr hit.updated_iso ctx1.published_date }
        | none => ctx1
      ({ ctx2 with
          current_model_year_ctx := none,
          current_model_ctx := none,
          current_model_exclusions_ctx := none }, [])
    | none =>
    if inlineHeaderMatch txt then
      let nxt := pyStrip (lookupLine lines (page, line_id + 1))
      let dates := dateFindAll nxt
      match programIdSearch nxt with
      | some pid =>
        if dates ≠ [] then
          let iso_dates := dates.map fun v => pad4 v.2.2 ++ "-" ++ pad2 v.1 ++ "-" ++ pad2 v.2.1
          let ctx1 := { ctx with program_id := some pid }
          let ctx2 :=
            match iso_dates.get? 0 with
            | some d => { ctx1 with published_date := some d }
            | none => ctx1
          let ctx3 :=
            match iso_dates.get? 1 with
            | some d => { ctx2 with program_start_date := some d }
            | none => ctx2
          let ctx4 :=
            match iso_dates.get? 2 with
            | some d => { ctx3 with program_end_date := some d }
            | none => ctx3
          (ctx4, [])
        else (ctx, [])
      | none => (ctx, [])
    else if fullmatchCI "Program ID" txt then
      let nxt := pyStrip (lookupLine lines (page, line_id + 1))
      match programIdSearch nxt with
      | some pid => ({ ctx with program_id := some pid }, [])
      | none => (ctx, [])
    else if fullmatchCI "Published" txt then
      let nxt := pyStrip (lookupLine lines (page, line_id + 1))
      match iso_date_or_none nxt with
      | some v => ({ ctx with published_date := some v }, [])
      | none => (ctx, [])
    else if fullmatchCI "Program Start" txt then
      let nxt := pyStrip (lookupLine lines (page, line_id + 1))
      match iso_date_or_none nxt with
      | some v => ({ ctx with program_start_date := some v }, [])
      | none => (ctx, [])
    else if fullmatchCI "Program End" txt then
      let nxt := pyStrip (lookupLine lines (page, line_id + 1))
      match iso_date_or_none nxt with
      | some v => ({ ctx with program_end_date := some v }, [])
      | none => (ctx, [])
    else
      match modelHeaderMatch txt with
      | some yb =>
        let model_raw := pyStrip yb.2
        let year := yearOfGroup yb.1
        if pyLower model_raw = "bonus" then
          ({ ctx with
              current_model_year_ctx := some year,
              current_model_ctx := none,
              current_model_exclusions_ctx := none }, [])
        else
          let model_norm := findNormModel (pyLower model_raw)
          ({ ctx with
              current_model_year_ctx := some year,
              current_model_ctx := some (pyOrStrVal model_norm model_raw),
              current_model_exclusions_ctx := parse_exclusions_from_text txt_raw }, [])
      | none =>
      match myStandaloneMatch txt with
      | some y =>
        ({ ctx with
            current_model_year_ctx := some (yearOfGroup y),
            current_model_exclusions_ctx := none }, [])
      | none =>
      match myWithBonusMatch txt with
      | some y =>
        ({ ctx with
            current_model_year_ctx := some (yearOfGroup y),
            current_model_ctx := none,
            current_model_exclusions_ctx := none }, [])
      | none =>
      match rangeSearch txt with
      | some g =>
        if containsChar txt '$' then
          let override := allVehiclesSearch txt
          let excl_final := exclFinalFor lines page line_id ctx txt_raw
          (ctx,
            rangeRows ctx page override excl_final (normalize_amount g.1) (normalize_amount g.2))
        else dollarBranch lines page line_id ctx txt_raw txt
      | none => dollarBranch lines page line_id ctx txt_raw txt

/-- Lexicographic order on `(page, line_id)` keys (`sorted(lines.keys())`). -/
def pairLexLE (a b : Nat × Nat) : Prop :=
  a.1 < b.1 ∨ (a.1 = b.1 ∧ a.2 ≤ b.2)

instance : DecidableRel pairLexLE :=
  fun x y => inferInstanceAs (Decidable (x.1 < y.1 ∨ (x.1 = y.1 ∧ x.2 ≤ y.2)))

/-- The walk order: line keys sorted lexicographically. -/
def sortedKeys (lines : List ((Nat × Nat) × String)) : List (Nat × Nat) :=
  (lines.map Prod.fst).insertionSort pairLexLE

/-- The line ids present on a page. -/
def lineIdsOfPage (lines : List ((Nat × Nat) × String)) (page : Nat) : List Nat :=
  ((lines.map Prod.fst).filter (fun k => k.1 = page)).map Prod.snd

/-- Python `min(l for (p, l) in lines.keys() if p == page)`; `none` is the
case where the Python expression would raise on an empty sequence. -/
def minLineId (lines : List ((Nat × Nat) × String)) (page : Nat) : Option Nat :=
  (lineIdsOfPage lines page).min?

/-- One step of the walk: apply the page-start preload on the first line of a
page, then dispatch the line. -/
def walkStep (toc : List TocEntry) (lines : List ((Nat × Nat) × String))
    (st : Ctx × List KV) (k : Nat × Nat) : Ctx × List KV :=
  let ctx0 := if minLineId lines k.1 = some k.2 then pageStartUpdate toc k.1 st.1 else st.1
  let hr := handleLine toc lines k.1 k.2 ctx0
  (hr.1, st.2 ++ hr.2)

/-- One step of the walk in the exception-aware semantics: the page-start
test evaluates `min(...)`, which raises exactly when the page has no line
ids. -/
def walkStepE (toc : List TocEntry) (lines : List ((Nat × Nat) × String))
    (st : Ctx × List KV) (k : Nat × Nat) : Except Unit (Ctx × List KV) :=
  match minLineId lines k.1 with
  | none => .error ()
  | some _ => .ok (walkStep toc lines st k)

/-- The whole line walk of `extract`: fold the steps over the sorted keys. -/
def extractWalk (spans : List Span) : Ctx × List KV :=
  let lines := lines_from_spans spans
  let toc := build_toc_index lines
  (sortedKeys lines).foldl (walkStep toc lines) ({}, [])

/-- The walk in the exception-aware semantics. -/
def extractWalkE (spans : List Span) : Except Unit (Ctx × List KV) :=
  let lines := lines_from_spans spans
  let toc := build_toc_index lines
  (sortedKeys lines).foldlM (walkStepE toc lines) ({}, [])

/-- The candidate rows of a document before the program filter. -/
def rawKVs (spans : List Span) : List KV :=
  (extractWalk spans).2

/-- The keep test of the program filter: rows with a truthy program id are
kept when that program has at least one row with an amount; rows without one
are kept when they have an amount themselves. -/
def keepKV (kvs : List KV) (kv : KV) : Bool :=
  if strTruthy kv.program_id then
    kvs.any fun kv2 =>
      strTruthy kv2.program_id ∧ kv2.program_id = kv.program_id ∧ kv2.amount_dollars ≠ none
  else kv.amount_dollars ≠ none

/-- The program filter of `extract`. -/
def filterProg (kvs : List KV) : List KV :=
  kvs.filter (keepKV kvs)

/-- The final belt-and-suspenders sweep: a model equal to the noise token
(case-insensitively) is rewritten to the sentinel. -/
def sweepKV (kv : KV) : KV :=
  match kv.model with
  | some m => if m ≠ "" ∧ pyLower m = "bonus" then { kv with model := some "all" } else kv
  | none => kv

/-- The composite sort key of `extract.sort_key`: page, program id as text,
model year (absent as 0), model, trim, amount. -/
def sortKeyE (kv : KV) : Nat × String × Nat × String × String × Nat :=
  (kv.page, kv.program_id.getD "", kv.model_year.getD 0,
    kv.model.getD "", kv.trim.getD "", kv.amount_dollars.getD 0)

/-- Tuple comparison for `sort_key` (each component ascending). -/
def cmpSortKeyE : (Nat × String × Nat × String × String × Nat) →
    (Nat × String × Nat × String × String × Nat) → Ordering :=
  cmpProd cmpN (cmpProd cmpStr (cmpProd cmpN (cmpProd cmpStr (cmpProd cmpStr cmpN))))

/-- The row order produced by `filtered.sort(key=sort_key)`. -/
def extractLE (a b : KV) : Prop :=
  cmpSortKeyE (sortKeyE a) (sortKeyE b) ≠ .gt

instance : DecidableRel extractLE :=
  fun x y => inferInstanceAs (Decidable (¬ _ = _))

/-- Append an index to a program-id group (Python `dict.setdefault`). -/
def addToGroup : List (String × List Nat) → String → Nat → List (String × List Nat)
  | [], key, idx => [(key, [idx])]
  | g :: gs, key, idx =>
    if g.1 = key then (g.1, g.2 ++ [idx]) :: gs else g :: addToGroup gs key idx

/-- The `kv_groups` provenance map: program id (or the reserved no-program
bucket) to row indices. -/
def kv_groups_of (kvs : List KV) : List (String × List Nat) :=
  kvs.enum.foldl
    (fun gs p =>
      addToGroup gs
        (if strTruthy p.2.program_id then p.2.program_id.getD "" else "_NO_PROGRAM_ID_")
        p.1)
    []

/-- The post-processing tail of `extract`: program filter, noise-model sweep,
sort, grouping, result assembly. -/
def postProcess (doc_id parser_name : String) (kvs : List KV) : DocResult :=
  let filtered := filterProg kvs
  let swept := filtered.map sweepKV
  let sortedKVs := swept.insertionSort extractLE
  { doc_id := doc_id,
    kvs := sortedKVs,
    provenance :=
      { parser := parser_name,
        rules_version := "2025-08-31-adjacent-exclusions",
        kv_groups := kv_groups_of sortedKVs,
        kv_group_order :=
          dedupFirst (sortedKVs.map fun kv => pyOrStrVal kv.program_id "_NO_PROGRAM_ID_") } }

/-- Function `extract`: the full pipeline from spans to a `DocResult`. -/
def extract (doc_id : String) (spans : List Span) (parser_name : String) : DocResult :=
  postProcess doc_id parser_name (rawKVs spans)

/-- Function `extract` in the exception-aware semantics: `.error` marks the
one place the walk could raise (`min` of an empty sequence). -/
def extractE (doc_id : String) (spans : List Span) (parser_name : String) :
    Except Unit DocResult :=
  (extractWalkE spans).map fun wr => postProcess doc_id parser_name wr.2

/-! ## De-duplication (`app/services/validate.py`) -/

/-- Function `_norm` of `validate.py`: lowercase and trim, `None` for falsy
input. -/
def pyNorm : Option String → Option String
  | none => none
  | some s => if s ≠ "" then some (pyLower (pyStrip s)) else none

/-- The tuple type of `_dedupe_key`. -/
structure DKey where
  rt : Option String
  pid : Option String
  pub : Option String
  pst : Option String
  pen : Option String
  my : Option Nat
  mdl : Option String
  trm : Option String
  amt : Option Nat
  cur : String
  deriving Repr, DecidableEq

/-- The uniqueness key `_dedupe_key`. -/
def _dedupe_key (kv : KV) : DKey :=
  ⟨pyNorm kv.rebate_type, pyNorm kv.program_id, pyNorm kv.published_date,
    pyNorm kv.program_start_date, pyNorm kv.program_end_date, kv.model_year,
    pyNorm kv.model, pyNorm kv.trim, kv.amount_dollars, kv.currency⟩

/-- The dict update of `tighten`: first occurrence keeps its position, the
stored row is replaced only by a strictly higher confidence. -/
def insertBest (kv : KV) : List KV → List KV
  | [] => [kv]
  | e :: es =>
    if _dedupe_key e = _dedupe_key kv then
      (if kv.confidence > e.confidence then kv else e) :: es
    else e :: insertBest kv es

/-- The de-dup pass of `tighten` (`best` dict in insertion order). -/
def dedupeBest (l : List KV) : List KV :=
  l.foldl (fun acc kv => insertBest kv acc) []

/-- The presentation sort key of `tighten` (rebate type, published date,
model year descending, model, amount descending; the descending parts are
encoded by integer negation, as in the source's `-(k.model_year or 0)`). -/
def tightenKey (kv : KV) : String × String × Int × String × Int :=
  (pyOrStrVal (pyNorm kv.rebate_type) "",
    pyOrStrVal (pyNorm kv.published_date) "",
    -(Int.ofNat (kv.model_year.getD 0)),
    pyOrStrVal (pyNorm kv.model) "",
    -(Int.ofNat (kv.amount_dollars.getD 0)))

/-- Tuple comparison for `tighten`'s sort key. -/
def cmpTightenKey : (String × String × Int × String × Int) →
    (String × String × Int × String × Int) → Ordering :=
  cmpProd cmpStr (cmpProd cmpStr (cmpProd cmpI (cmpProd cmpStr cmpI)))

/-- The row order of `tighten`'s final sort. -/
def tightenLE (a b : KV) : Prop :=
  cmpTightenKey (tightenKey a) (tightenKey b) ≠ .gt

instance : DecidableRel tightenLE :=
  fun x y => inferInstanceAs (Decidable (¬ _ = _))

/-- Function `tighten`: drop amount-less rows, keep the best row per key,
sort for presentation. -/
def tighten (kvs : List KV) : List KV :=
  let kvs1 := kvs.filter fun k => k.amount_dollars ≠ none
  (dedupeBest kvs1).insertionSort tightenLE

/-! ## Claim-support definitions -/

/-- Strict left-edge order on spans. -/
def spanLeftLT (a b : Span) : Prop :=
  a.bbox.1 < b.bbox.1

instance : IsTotal Span spanLeftLE :=
  ⟨fun a b => le_total a.bbox.1 b.bbox.1⟩

instance : IsTrans Span spanLeftLE :=
  ⟨fun _ _ _ h1 h2 => le_trans h1 h2⟩

instance : IsAntisymm Span spanLeftLT :=
  ⟨fun _ _ h1 h2 => absurd h1 (not_lt_of_gt h2)⟩

instance : DecidableRel spanLeftLT :=
  fun a b => inferInstanceAs (Decidable (a.bbox.1 < b.bbox.1))

/-- The Bool form of `tighten`'s per-key bucket predicate. -/
def byKeyB (k : DKey) (kv : KV) : Bool :=
  _dedupe_key kv = k

/-- The best-so-far fold of one `tighten` bucket: the stored row is replaced
only by a strictly higher confidence, so the result is the first row attaining
the bucket's maximal confidence. -/
def bestOf : KV → List KV → KV
  | b, [] => b
  | b, kv :: r => bestOf (if kv.confidence > b.confidence then kv else b) r

/-- The walk context at the start of a page: fold the walk over the keys of
all earlier pages (the prefix of the sorted key order), then apply the
page-start preload — the state `extract`'s loop has right after the
page-start block of that page's first line. -/
def ctxAtPageStart (spans : List Span) (page : Nat) : Ctx :=
  let lines := lines_from_spans spans
  let toc := build_toc_index lines
  let before := (sortedKeys lines).filter (fun k => k.1 < page)
  pageStartUpdate toc page (before.foldl (walkStep toc lines) ({}, [])).1

/-- The composite sort key as claim C4 states it — identical to `sortKeyE`
except that the model year is DESCENDING (encoded by integer negation).
This definition follows the claim's words, to be compared with the source's
`sortKeyE`. -/
def claimSortKeyC4 (kv : KV) : Nat × String × Int × String × String × Nat :=
  (kv.page, kv.program_id.getD "", -(Int.ofNat (kv.model_year.getD 0)),
    kv.model.getD "", kv.trim.getD "", kv.amount_dollars.getD 0)

/-- Tuple comparison for the claimed key. -/
def cmpClaimKeyC4 : (Nat × String × Int × String × String × Nat) →
    (Nat × String × Int × String × String × Nat) → Ordering :=
  cmpProd cmpN (cmpProd cmpStr (cmpProd cmpI (cmpProd cmpStr (cmpProd cmpStr cmpN))))

/-- The row order claim C4 asserts. -/
def claimC4LE (a b : KV) : Prop :=
  cmpClaimKeyC4 (claimSortKeyC4 a) (claimSortKeyC4 b) ≠ .gt

instance : DecidableRel claimC4LE :=
  fun x y => inferInstanceAs (Decidable (¬ _ = _))

/-- The decimal digit character of a value below ten. -/
def digitChar (n : Nat) : Char :=
  Char.ofNat (48 + n)

/-- The one- or two-digit decimal rendering of a number below 100 (no leading
zero). -/
def render12 (n : Nat) : List Char :=
  if n < 10 then [digitChar n] else [digitChar (n / 10), digitChar (n % 10)]

/-- The four-digit decimal rendering of a year below 10000. -/
def render4 (y : Nat) : List Char :=
  [digitChar (y / 1000), digitChar (y / 100 % 10), digitChar (y / 10 % 10),
    digitChar (y % 10)]

/-- A plain `M<sep>D<sep>YYYY` date string built from numeric components
(used to quantify claim C8 over all date strings of that shape). -/
def renderDate (m : Nat) (s1 : Char) (d : Nat) (s2 : Char) (y : Nat) : String :=
  ⟨render12 m ++ s1 :: (render12 d ++ s2 :: render4 y)⟩

/-- A document whose page 1 sets a program id from a header pair and whose
page 2 has a plain amount line: exhibits context carry-over across pages. -/
def ex3spans : List Span :=
  [ ⟨"Program ID", (0, 0, 50, 10), 1, false, 1, none⟩,
    ⟨"V25UAE08", (0, 15, 80, 25), 1, false, 2, none⟩,
    ⟨"Tiguan $500", (0, 0, 80, 10), 2, false, 1, none⟩ ]

/-- A document with two model-year table sections on one page, producing rows
of model years 2024 and 2025. -/
def ex4spans : List Span :=
  [ ⟨"MY24 Tiguan", (0, 0, 50, 10), 1, false, 1, none⟩,
    ⟨"S $500", (0, 15, 50, 25), 1, false, 2, none⟩,
    ⟨"MY25 Tiguan", (0, 30, 50, 40), 1, false, 3, none⟩,
    ⟨"S $500", (0, 45, 50, 55), 1, false, 4, none⟩ ]

/-- A document whose only line is a money range with a zero low endpoint. -/
def ex5spans : List Span :=
  [ ⟨"$0 - $500", (0, 0, 50, 10), 1, false, 1, none⟩ ]

/-- A minimal one-row document (an amount line naming a model). -/
def exC1spans : List Span :=
  [ ⟨"Tiguan $500", (0, 0, 80, 10), 1, false, 1, none⟩ ]

/-- The single row `extract` produces from `exC1spans`. -/
def exC1kv : KV :=
  { amount_dollars := some 500, currency := "USD", rebate_type := none,
    program_id := none, published_date := none, program_start_date := none,
    program_end_date := none, model_year := none, model := some "Tiguan",
    trim := none, exclusions := none, page := 1, confidence := Rat.divInt 9 10 }

/-- A document naming a program id that never co-occurs with an amount. -/
def exC6spans : List Span :=
  [ ⟨"Program ID", (0, 0, 50, 10), 1, false, 1, none⟩,
    ⟨"V25ABC01", (0, 15, 80, 25), 1, false, 2, none⟩,
    ⟨"no amounts here", (0, 30, 80, 40), 1, false, 3, none⟩ ]

/-- A one-line lines map holding a money range (for the C5 witness). -/
def exC5lines : List ((Nat × Nat) × String) :=
  [ ((1, 1), "$500 - $1,500") ]

/-- A fully populated context (for the C5 witness). -/
def exC5ctx : Ctx :=
  { current_rebate_type := some "Dealer Bonus",
    program_id := some "V25UAE08",
    published_date := some "2025-08-01",
    program_start_date := some "2025-08-01",
    program_end_date := some "2025-09-30",
    current_model_year_ctx := some 2025,
    current_model_ctx := some "Tiguan",
    current_model_exclusions_ctx := none }

/-- Two same-line spans with distinct left edges (for the C7 witness). -/
def exC7spans : List Span :=
  [ ⟨"World", (60, 0, 110, 10), 1, false, 1, none⟩,
    ⟨"Hello", (0, 0, 50, 10), 1, false, 1, none⟩ ]

/-- Two same-line spans with EQUAL left edges (C7 counterexample). -/
def exC7tie : List Span :=
  [ ⟨"a", (0, 0, 10, 10), 1, false, 1, none⟩,
    ⟨"b", (0, 0, 10, 10), 1, false, 1, none⟩ ]

/-! ## Infrastructure lemmas: every emitted candidate row has a model and an
amount -/

/-- Rows of the `emit_amt` closure always carry a model and an amount. -/
theorem mem_emitAmt_inv {ctx : Ctx} {page : Nat} {ov : Bool} {excl : Option String}
    {o : Option Nat} {kv : KV} (h : kv ∈ emitAmt ctx page ov excl o) :
    kv.model.isSome ∧ kv.amount_dollars.isSome := by
  cases o with
  | none => simp [emitAmt] at h
  | some a =>
    simp only [emitAmt] at h
    split at h
    · simp only [List.mem_singleton] at h
      subst h
      simp [mkRangeKV]
    · simp at h

/-- Rows of the money-range branch always carry a model and an amount. -/
theorem mem_rangeRows_inv {ctx : Ctx} {page : Nat} {ov : Bool} {excl : Option String}
    {lo hi : Option Nat} {kv : KV} (h : kv ∈ rangeRows ctx page ov excl lo hi) :
    kv.model.isSome ∧ kv.amount_dollars.isSome := by
  simp only [rangeRows, List.mem_append] at h
  rcases h with h | h
  · exact mem_emitAmt_inv h
  · split at h
    · exact mem_emitAmt_inv h
    · simp at h

/-- Rows of the dollar branches always carry a model and an amount. -/
theorem mem_dollarBranch_inv {lines : List ((Nat × Nat) × String)} {page lid : Nat}
    {ctx : Ctx} {tr t : String} {kv : KV}
    (h : kv ∈ (dollarBranch lines page lid ctx tr t).2) :
    kv.model.isSome ∧ kv.amount_dollars.isSome := by
  simp only [dollarBranch] at h
  split at h
  · split at h
    · next rows hrows =>
      -- table path: rows are mapped `mkTableKV`s
      split at hrows
      · split at hrows
        · split at hrows
          · simp only [Option.some.injEq] at hrows
            subst hrows
            simp only [List.mem_map] at h
            obtain ⟨a, _, rfl⟩ := h
            simp [mkTableKV]
          · exact absurd hrows (by simp)
        · exact absurd hrows (by simp)
      · exact absurd hrows (by simp)
    · -- fallback path
      split at h
      · simp at h
      · simp only [List.mem_flatMap, List.mem_map] at h
        obtain ⟨a, _, mdel, _, rfl⟩ := h
        simp [mkFallbackKV]
  · simp at h

/-- Rows emitted by `handleLine` always carry a model and an amount. -/
theorem mem_handleLine_inv {toc : List TocEntry} {lines : List ((Nat × Nat) × String)}
    {page lid : Nat} {ctx : Ctx} {kv : KV}
    (h : kv ∈ (handleLine toc lines page lid ctx).2) :
    kv.model.isSome ∧ kv.amount_dollars.isSome := by
  simp only [handleLine] at h
  split at h
  · simp at h
  · split at h
    · simp at h
    · split at h
      · split at h
        · split at h <;> simp at h
        · simp at h
      · split at h
        · split at h <;> simp at h
        · split at h
          · split at h <;> simp at h
          · split at h
            · split at h <;> simp at h
            · split at h
              · split at h <;> simp at h
              · split at h
                · split at h <;> simp at h
                · split at h
                  · simp at h
                  · split at h
                    · simp at h
                    · split at h
                      · split at h
                        · exact mem_rangeRows_inv h
                        · exact mem_dollarBranch_inv h
                      · exact mem_dollarBranch_inv h

/-- Fold invariant of the walk: every row in the accumulator either was there
already or carries a model and an amount. -/
theorem walk_inv (toc : List TocEntry) (lines : List ((Nat × Nat) × String)) :
    ∀ (keys : List (Nat × Nat)) (st : Ctx × List KV) (kv : KV),
      kv ∈ (keys.foldl (walkStep toc lines) st).2 →
      kv ∈ st.2 ∨ (kv.model.isSome ∧ kv.amount_dollars.isSome)
  | [], _, _, h => Or.inl h
  | k :: ks, st, kv, h => by
    have ih := walk_inv toc lines ks (walkStep toc lines st k) kv h
    rcases ih with hmem | hp
    · simp only [walkStep, List.mem_append] at hmem
      rcases hmem with hmem | hmem
      · exact Or.inl hmem
      · exact Or.inr (mem_handleLine_inv hmem)
    · exact Or.inr hp

/-- Every candidate row of a document carries a model and an amount. -/
theorem rawKVs_inv {spans : List Span} {kv : KV} (h : kv ∈ rawKVs spans) :
    kv.model.isSome ∧ kv.amount_dollars.isSome := by
  have := walk_inv (build_toc_index (lines_from_spans spans)) (lines_from_spans spans)
    (sortedKeys (lines_from_spans spans)) ({}, []) kv h
  simpa using this

/-- The sweep changes only the model field, and keeps it present. -/
theorem sweepKV_fields (kv : KV) :
    (sweepKV kv).program_id = kv.program_id ∧
    (sweepKV kv).amount_dollars = kv.amount_dollars ∧
    (sweepKV kv).model.isSome = kv.model.isSome := by
  unfold sweepKV
  split
  · split
    · simp_all
    · simp
  · simp_all

/-- Membership in `extract`'s output comes from a candidate row through the
program filter and the sweep. -/
theorem mem_extract_kvs {doc parser : String} {spans : List Span} {kv : KV}
    (h : kv ∈ (extract doc spans parser).kvs) :
    ∃ kv0, kv0 ∈ rawKVs spans ∧ kv0 ∈ filterProg (rawKVs spans) ∧ kv = sweepKV kv0 := by
  simp only [extract, postProcess] at h
  rw [List.mem_insertionSort] at h
  simp only [List.mem_map] at h
  obtain ⟨kv0, hmem, rfl⟩ := h
  exact ⟨kv0, List.mem_of_mem_filter hmem, hmem, rfl⟩

/-! ## Comparator laws -/

/-- Laws of the natural-number comparator. -/
theorem lawful_cmpN : LawfulCmp cmpN := by
  refine ⟨?_, ?_, ?_⟩
  · intro a b
    unfold cmpN
    split_ifs <;> simp <;> omega
  · intro a b
    unfold cmpN
    split_ifs <;> first | rfl | omega
  · intro a b d h1 h2
    unfold cmpN at h1 h2 ⊢
    split_ifs at h1 h2 ⊢ <;> simp_all <;> omega

/-- Laws of the integer comparator. -/
theorem lawful_cmpI : LawfulCmp cmpI := by
  refine ⟨?_, ?_, ?_⟩
  · intro a b
    unfold cmpI
    split_ifs <;> simp <;> omega
  · intro a b
    unfold cmpI
    split_ifs <;> first | rfl | omega
  · intro a b d h1 h2
    unfold cmpI at h1 h2 ⊢
    split_ifs at h1 h2 ⊢ <;> simp_all <;> omega

/-- Laws of the character comparator. -/
theorem lawful_cmpChar : LawfulCmp cmpChar := by
  refine ⟨?_, ?_, ?_⟩
  · intro a b
    rw [cmpChar, lawful_cmpN.eq_iff]
    exact ⟨fun h => Char.eq_of_val_eq (UInt32.ext h), fun h => h ▸ rfl⟩
  · intro a b
    exact lawful_cmpN.swap a.toNat b.toNat
  · intro a b d
    exact lawful_cmpN.lt_trans a.toNat b.toNat d.toNat

/-- Laws of the character-list comparator. -/
theorem lawful_cmpCharList : LawfulCmp cmpCharList := by
  refine ⟨?_, ?_, ?_⟩
  · intro a
    induction a with
    | nil => intro b; cases b <;> simp [cmpCharList]
    | cons x xs ih =>
      intro b
      cases b with
      | nil => simp [cmpCharList]
      | cons y ys =>
        simp only [cmpCharList]
        cases hxy : cmpChar x y with
        | eq =>
          have hx : x = y := (lawful_cmpChar.eq_iff x y).mp hxy
          subst hx
          rw [ih ys]
          simp
        | lt =>
          have : x ≠ y := fun h => by
            rw [h, (lawful_cmpChar.eq_iff y y).mpr rfl] at hxy
            exact absurd hxy (by simp)
          simp_all
        | gt =>
          have : x ≠ y := fun h => by
            rw [h, (lawful_cmpChar.eq_iff y y).mpr rfl] at hxy
            exact absurd hxy (by simp)
          simp_all
  · intro a
    induction a with
    | nil => intro b; cases b <;> simp [cmpCharList, Ordering.swap]
    | cons x xs ih =>
      intro b
      cases b with
      | nil => simp [cmpCharList, Ordering.swap]
      | cons y ys =>
        simp only [cmpCharList]
        rw [lawful_cmpChar.swap x y]
        cases cmpChar y x <;> simp [Ordering.swap, ih ys]
  · intro a
    induction a with
    | nil =>
      intro b d h1 h2
      cases b with
      | nil => exact h2
      | cons y ys => cases d <;> simp_all [cmpCharList]
    | cons x xs ih =>
      intro b d h1 h2
      cases b with
      | nil => simp [cmpCharList] at h1
      | cons y ys =>
        cases d with
        | nil => simp [cmpCharList] at h2
        | cons z zs =>
          simp only [cmpCharList] at h1 h2 ⊢
          cases hxy : cmpChar x y with
          | gt => simp [hxy] at h1
          | eq =>
            have hx : x = y := (lawful_cmpChar.eq_iff x y).mp hxy
            subst hx
            rw [hxy] at h1
            cases hyz : cmpChar x z with
            | gt => simp [hyz] at h2
            | eq =>
              have hy : x = z := (lawful_cmpChar.eq_iff x z).mp hyz
              subst hy
              rw [hyz] at h2
              exact ih ys zs h1 h2
            | lt => simp [hyz]
          | lt =>
            rw [hxy] at h1
            cases hyz : cmpChar y z with
            | gt => simp [hyz] at h2
            | eq =>
              have hy : y = z := (lawful_cmpChar.eq_iff y z).mp hyz
              subst hy
              simp [hxy]
            | lt =>
              have := lawful_cmpChar.lt_trans x y z hxy hyz
              simp [this]

/-- Laws of the Python string comparator. -/
theorem lawful_cmpStr : LawfulCmp cmpStr := by
  refine ⟨?_, ?_, ?_⟩
  · intro a b
    rw [cmpStr, lawful_cmpCharList.eq_iff]
    constructor
    · intro h
      cases a
      cases b
      exact congrArg String.mk h
    · intro h
      rw [h]
  · intro a b
    exact lawful_cmpCharList.swap a.data b.data
  · intro a b d
    exact lawful_cmpCharList.lt_trans a.data b.data d.data

/-- Laws transfer to lexicographic pair comparators. -/
theorem lawful_cmpProd {α β : Type} {ca : α → α → Ordering} {cb : β → β → Ordering}
    (ha : LawfulCmp ca) (hb : LawfulCmp cb) : LawfulCmp (cmpProd ca cb) := by
  refine ⟨?_, ?_, ?_⟩
  · intro x y
    simp only [cmpProd]
    cases hxy : ca x.1 y.1 with
    | eq =>
      have h1 : x.1 = y.1 := (ha.eq_iff _ _).mp hxy
      rw [hb.eq_iff]
      constructor
      · intro h2
        exact Prod.ext h1 h2
      · intro h
        rw [h]
    | lt =>
      simp only [reduceCtorEq, false_iff]
      intro h
      rw [h, (ha.eq_iff _ _).mpr rfl] at hxy
      exact absurd hxy (by simp)
    | gt =>
      simp only [reduceCtorEq, false_iff]
      intro h
      rw [h, (ha.eq_iff _ _).mpr rfl] at hxy
      exact absurd hxy (by simp)
  · intro x y
    simp only [cmpProd]
    rw [ha.swap x.1 y.1]
    cases ca y.1 x.1 <;> simp [Ordering.swap, hb.swap x.2 y.2]
  · intro x y z h1 h2
    simp only [cmpProd] at h1 h2 ⊢
    cases hxy : ca x.1 y.1 with
    | gt => simp [hxy] at h1
    | eq =>
      have h1e : x.1 = y.1 := (ha.eq_iff _ _).mp hxy
      rw [hxy] at h1
      cases hyz : ca y.1 z.1 with
      | gt => simp [hyz] at h2
      | eq =>
        have h2e : y.1 = z.1 := (ha.eq_iff _ _).mp hyz
        rw [hyz] at h2
        rw [(ha.eq_iff _ _).mpr (h1e.trans h2e)]
        exact hb.lt_trans _ _ _ h1 h2
      | lt =>
        rw [h1e, hyz]
    | lt =>
      rw [hxy] at h1
      cases hyz : ca y.1 z.1 with
      | gt => simp [hyz] at h2
      | eq =>
        have h2e : y.1 = z.1 := (ha.eq_iff _ _).mp hyz
        rw [← h2e, hxy]
      | lt =>
        rw [ha.lt_trans _ _ _ hxy hyz]

/-- A lawful comparator's not-gt relation is total. -/
theorem LawfulCmp.total {α : Type} {c : α → α → Ordering} (hc : LawfulCmp c) (a b : α) :
    c a b ≠ .gt ∨ c b a ≠ .gt := by
  cases hab : c a b with
  | lt => exact Or.inl (by simp)
  | eq => exact Or.inl (by simp)
  | gt =>
    refine Or.inr ?_
    have := hc.swap a b
    rw [hab] at this
    cases hba : c b a <;> rw [hba] at this <;> simp [Ordering.swap] at this ⊢

/-- A lawful comparator's not-gt relation is transitive. -/
theorem LawfulCmp.notgt_trans {α : Type} {c : α → α → Ordering} (hc : LawfulCmp c)
    {a b d : α} (h1 : c a b ≠ .gt) (h2 : c b d ≠ .gt) : c a d ≠ .gt := by
  cases hab : c a b with
  | gt => exact absurd hab h1
  | eq =>
    rw [(hc.eq_iff a b).mp hab]
    exact h2
  | lt =>
    cases hbd : c b d with
    | gt => exact absurd hbd h2
    | eq =>
      rw [← (hc.eq_iff b d).mp hbd]
      simp [hab]
    | lt =>
      rw [hc.lt_trans a b d hab hbd]
      simp

/-- Laws of the `sort_key` tuple comparator. -/
theorem lawful_cmpSortKeyE : LawfulCmp cmpSortKeyE :=
  lawful_cmpProd lawful_cmpN (lawful_cmpProd lawful_cmpStr (lawful_cmpProd lawful_cmpN
    (lawful_cmpProd lawful_cmpStr (lawful_cmpProd lawful_cmpStr lawful_cmpN))))

/-- Laws of the `tighten` tuple comparator. -/
theorem lawful_cmpTightenKey : LawfulCmp cmpTightenKey :=
  lawful_cmpProd lawful_cmpStr (lawful_cmpProd lawful_cmpStr (lawful_cmpProd lawful_cmpI
    (lawful_cmpProd lawful_cmpStr lawful_cmpI)))

instance : IsTotal KV extractLE :=
  ⟨fun a b => lawful_cmpSortKeyE.total (sortKeyE a) (sortKeyE b)⟩

instance : IsTrans KV extractLE :=
  ⟨fun _ _ _ h1 h2 => lawful_cmpSortKeyE.notgt_trans h1 h2⟩

instance : IsTotal KV tightenLE :=
  ⟨fun a b => lawful_cmpTightenKey.total (tightenKey a) (tightenKey b)⟩

instance : IsTrans KV tightenLE :=
  ⟨fun _ _ _ h1 h2 => lawful_cmpTightenKey.notgt_trans h1 h2⟩

/-! ## Claim theorems -/

/-- C10: for every input span list, every row in the `DocResult` returned by
`extract` has a non-absent model field (the emission rules substitute the
sentinel "all" whenever no model can be resolved, and the final sweep keeps
the field present). -/
theorem extract_model_always_present (doc parser : String) (spans : List Span) :
    ∀ kv ∈ (extract doc spans parser).kvs, kv.model.isSome := by
  intro kv h
  obtain ⟨kv0, hraw, _, rfl⟩ := mem_extract_kvs h
  rw [(sweepKV_fields kv0).2.2]
  exact (rawKVs_inv hraw).1

/-- Witness for C10 at a concrete document. -/
theorem extract_model_always_present_witness :
    exC1kv ∈ (extract "doc" exC1spans "pdfplumber").kvs ∧ exC1kv.model.isSome :=
  ⟨by decide, extract_model_always_present "doc" "pdfplumber" exC1spans exC1kv (by decide)⟩

/-- C1: no row in the `DocResult` returned by `extract` has a model equal to
the noise token "Bonus" compared case-insensitively (lower-casing the model
never yields "bonus"): the final sweep rewrites any such value to "all". -/
theorem extract_model_never_bonus (doc parser : String) (spans : List Span) :
    ∀ kv ∈ (extract doc spans parser).kvs, ∀ s, kv.model = some s → pyLower s ≠ "bonus" := by
  intro kv h s hms
  obtain ⟨kv0, _, _, rfl⟩ := mem_extract_kvs h
  revert hms
  unfold sweepKV
  split
  · next m hm =>
    split
    · intro hms
      simp only [Option.some.injEq] at hms
      subst hms
      decide
    · next hcond =>
      intro hms
      simp only [hm, Option.some.injEq] at hms
      cases hms
      rcases not_and_or.mp hcond with hc | hc
      · rw [not_not.mp hc]
        decide
      · exact hc
  · intro hms
    simp_all

/-- Witness for C1 at a concrete document. -/
theorem extract_model_never_bonus_witness :
    exC1kv ∈ (extract "doc" exC1spans "pdfplumber").kvs ∧ pyLower "Tiguan" ≠ "bonus" :=
  ⟨by decide,
    extract_model_never_bonus "doc" "pdfplumber" exC1spans exC1kv (by decide) "Tiguan" (by decide)⟩

/-- The walk keys always index a page with at least one line id, so the
page-start `min(...)` never sees an empty sequence. -/
theorem sortedKeys_min_isSome (lines : List ((Nat × Nat) × String)) :
    ∀ k ∈ sortedKeys lines, (minLineId lines k.1).isSome := by
  intro k hk
  rw [sortedKeys, List.mem_insertionSort] at hk
  have h1 : k ∈ (lines.map Prod.fst).filter (fun k2 => k2.1 = k.1) :=
    List.mem_filter.mpr ⟨hk, by simp⟩
  have h2 : k.2 ∈ lineIdsOfPage lines k.1 := by
    unfold lineIdsOfPage
    exact List.mem_map.mpr ⟨k, h1, rfl⟩
  rw [minLineId]
  cases hmin : (lineIdsOfPage lines k.1).min? with
  | some _ => rfl
  | none =>
    rw [List.min?_eq_none_iff] at hmin
    rw [hmin] at h2
    simp at h2

/-- When every key's page has a line id, the exception-aware walk equals the
total walk wrapped in `ok`. -/
theorem foldlM_walk_ok (toc : List TocEntry) (lines : List ((Nat × Nat) × String)) :
    ∀ (keys : List (Nat × Nat)) (st : Ctx × List KV),
      (∀ k ∈ keys, (minLineId lines k.1).isSome) →
      keys.foldlM (walkStepE toc lines) st =
        Except.ok (keys.foldl (walkStep toc lines) st)
  | [], _, _ => rfl
  | k :: ks, st, h => by
    have hk := h k (by simp)
    obtain ⟨v, hv⟩ := Option.isSome_iff_exists.mp hk
    have hstep : walkStepE toc lines st k = Except.ok (walkStep toc lines st k) := by
      unfold walkStepE
      rw [hv]
    simp only [List.foldlM, List.foldl, hstep]
    have ih := foldlM_walk_ok toc lines ks (walkStep toc lines st k)
      (fun k2 hk2 => h k2 (List.mem_cons_of_mem _ hk2))
    simpa using ih

/-- C2: for every input span list satisfying the tokenizer contract, `extract`
returns a `DocResult` without raising: the exception-aware semantics
`extractE`, whose only error site is the page-start `min` over an empty
sequence, always returns `ok` of the value `extract` computes (all other
internal parse failures are already expressed as absent fields or zero
rows by construction of the classifiers). -/
theorem extractE_always_ok (doc parser : String) (spans : List Span) :
    extractE doc spans parser = Except.ok (extract doc spans parser) := by
  have h := foldlM_walk_ok (build_toc_index (lines_from_spans spans))
    (lines_from_spans spans) (sortedKeys (lines_from_spans spans)) ({}, [])
    (sortedKeys_min_isSome _)
  simp only [extractE, extractWalkE, h, Except.map]
  rfl

/-- C3 (amended): at the start of every page the walk resets the model-year
table header, the model context and the header-level exclusion context to
absent before the page's lines are processed (the program id, dates and
rebate type are instead preloaded from the TOC or carried over). -/
theorem pageStart_resets_table_ctx (spans : List Span) (page : Nat) :
    (ctxAtPageStart spans page).current_model_year_ctx = none ∧
    (ctxAtPageStart spans page).current_model_ctx = none ∧
    (ctxAtPageStart spans page).current_model_exclusions_ctx = none := by
  unfold ctxAtPageStart pageStartUpdate
  exact ⟨rfl, rfl, rfl⟩

/-- Counterexample to C3 as stated: on `ex3spans`, the program id set on page
1 is NOT reset at the start of page 2 — the context still holds it, and the
page-2 output row carries it. -/
theorem pageStart_reset_counterexample :
    (ctxAtPageStart ex3spans 2).program_id = some "V25UAE08" ∧
    ∃ kv ∈ (extract "doc" ex3spans "pdfplumber").kvs,
      kv.page = 2 ∧ kv.program_id = some "V25UAE08" := by
  decide

/-- C4 (amended): the rows returned by `extract` are sorted by the composite
key (page ascending, program id ascending as text, model year ascending with
absent treated as 0, model ascending, trim ascending, amount ascending). -/
theorem extract_kvs_sorted (doc parser : String) (spans : List Span) :
    List.Sorted extractLE (extract doc spans parser).kvs := by
  simp only [extract, postProcess]
  exact List.sorted_insertionSort extractLE _

/-- Counterexample to C4 as stated: on `ex4spans` the output rows have model
years 2024 then 2025 (same page, program id, model, trim, amount), so the
list is NOT sorted by the claimed key with model year descending. -/
theorem extract_sort_year_descending_counterexample :
    ((extract "doc" ex4spans "pdfplumber").kvs.map KV.model_year =
      [some 2024, some 2025]) ∧
    ¬ List.Sorted claimC4LE (extract "doc" ex4spans "pdfplumber").kvs := by
  constructor
  · decide
  · decide

/-- C6: in `extract`'s output, every row with a program id belongs to a
program with at least one row carrying an amount; every row without a program
id carries an amount; and a program that never co-occurs with an amount among
the candidate rows contributes no output rows. -/
theorem extract_program_amount_filter (doc parser : String) (spans : List Span) :
    (∀ kv ∈ (extract doc spans parser).kvs, ∀ p, kv.program_id = some p →
      ∃ kv2 ∈ (extract doc spans parser).kvs,
        kv2.program_id = some p ∧ kv2.amount_dollars.isSome) ∧
    (∀ kv ∈ (extract doc spans parser).kvs,
      kv.program_id = none → kv.amount_dollars.isSome) ∧
    (∀ p, (∀ kv ∈ rawKVs spans, kv.program_id = some p → kv.amount_dollars = none) →
      ∀ kv ∈ (extract doc spans parser).kvs, kv.program_id ≠ some p) := by
  have hall : ∀ kv ∈ (extract doc spans parser).kvs, kv.amount_dollars.isSome := by
    intro kv h
    obtain ⟨kv0, hraw, _, rfl⟩ := mem_extract_kvs h
    rw [(sweepKV_fields kv0).2.1]
    exact (rawKVs_inv hraw).2
  refine ⟨?_, ?_, ?_⟩
  · intro kv h p hp
    exact ⟨kv, h, hp, hall kv h⟩
  · intro kv h _
    exact hall kv h
  · intro p hp kv h hpid
    obtain ⟨kv0, hraw, _, rfl⟩ := mem_extract_kvs h
    rw [(sweepKV_fields kv0).1] at hpid
    have h2 := (rawKVs_inv hraw).2
    rw [hp kv0 hraw hpid] at h2
    simp at h2

/-- Witness for C6 at a concrete document whose only program reference never
co-occurs with an amount. -/
theorem extract_program_amount_filter_witness :
    (∀ kv ∈ rawKVs exC6spans, kv.program_id = some "V25ABC01" →
      kv.amount_dollars = none) ∧
    (∀ kv ∈ (extract "doc" exC6spans "pdfplumber").kvs,
      kv.program_id ≠ some "V25ABC01") :=
  ⟨by decide,
    (extract_program_amount_filter "doc" "pdfplumber" exC6spans).2.2 "V25ABC01" (by decide)⟩

/-- Every row of the money-range branch is a `mkRangeKV` of the active
context. -/
theorem mem_rangeRows_mk {ctx : Ctx} {page : Nat} {ov : Bool} {excl : Option String}
    {lo hi : Option Nat} {kv : KV} (h : kv ∈ rangeRows ctx page ov excl lo hi) :
    ∃ a, kv = mkRangeKV ctx page ov excl a := by
  have hemit : ∀ o : Option Nat, kv ∈ emitAmt ctx page ov excl o →
      ∃ a, kv = mkRangeKV ctx page ov excl a := by
    intro o ho
    rcases o with _ | a
    · simp [emitAmt] at ho
    · by_cases hz : a ≠ 0
      · simp only [emitAmt, if_pos hz, List.mem_singleton] at ho
        exact ⟨a, ho⟩
      · simp [emitAmt, hz] at ho
  simp only [rangeRows] at h
  rcases List.mem_append.mp h with h | h
  · exact hemit lo h
  · split at h
    · exact hemit hi h
    · simp at h

/-- C5 (amended): on a walked line whose text matches the money-range pattern
"$A - $B" (and none of the earlier classifiers), the branch emits one row per
distinct NON-ZERO endpoint value — the zero endpoints are dropped by
`emit_amt` — and every emitted row carries the rebate type, program id, the
three dates and the model-year context active at the moment of emission. -/
theorem handleLine_money_range (toc : List TocEntry)
    (lines : List ((Nat × Nat) × String)) (page line_id : Nat) (ctx : Ctx)
    (txt A B : String) (lo hi : Nat)
    (htxt : pyStrip (lookupLine lines (page, line_id)) = txt)
    (h1 : bonusSolo txt = false) (h2 : bonusWithDates txt = false)
    (h3 : dateRangeLabel txt = false)
    (h4 : rebateHeadingSearch txt = none)
    (h5 : inlineHeaderMatch txt = false)
    (h6 : fullmatchCI "Program ID" txt = false)
    (h7 : fullmatchCI "Published" txt = false)
    (h8 : fullmatchCI "Program Start" txt = false)
    (h9 : fullmatchCI "Program End" txt = false)
    (h10 : modelHeaderMatch txt = none)
    (h11 : myStandaloneMatch txt = none)
    (h12 : myWithBonusMatch txt = none)
    (h13 : rangeSearch txt = some (A, B))
    (h14 : containsChar txt '$' = true)
    (hlo : normalize_amount A = some lo) (hhi : normalize_amount B = some hi) :
    (handleLine toc lines page line_id ctx).1 = ctx ∧
    (handleLine toc lines page line_id ctx).2.map KV.amount_dollars =
      ((if lo ≠ 0 then [lo] else []) ++
        if hi ≠ 0 ∧ hi ≠ lo then [hi] else []).map some ∧
    ∀ kv ∈ (handleLine toc lines page line_id ctx).2,
      kv.rebate_type = ctx.current_rebate_type ∧
      kv.program_id = ctx.program_id ∧
      kv.published_date = ctx.published_date ∧
      kv.program_start_date = ctx.program_start_date ∧
      kv.program_end_date = ctx.program_end_date ∧
      kv.model_year = ctx.current_model_year_ctx := by
  have hred : handleLine toc lines page line_id ctx = (ctx,
      rangeRows ctx page (allVehiclesSearch txt)
        (exclFinalFor lines page line_id ctx (lookupLine lines (page, line_id)))
        (normalize_amount A) (normalize_amount B)) := by
    simp [handleLine, htxt, h1, h2, h3, h4, h5, h6, h7, h8, h9, h10, h11, h12, h13, h14]
  rw [hred]
  refine ⟨rfl, ?_, ?_⟩
  · rw [hlo, hhi]
    simp only [rangeRows, emitAmt, Option.elim, ne_eq, Option.some.injEq,
      List.map_append]
    by_cases hz : lo = 0 <;> by_cases hz2 : hi = 0 <;> by_cases he : hi = lo <;>
      simp [hz, hz2, he, mkRangeKV]
  · intro kv hkv
    obtain ⟨a, rfl⟩ := mem_rangeRows_mk hkv
    exact ⟨rfl, rfl, rfl, rfl, rfl, rfl⟩

/-- Witness for C5 at a concrete context and line "$500 - $1,500". -/
theorem handleLine_money_range_witness :
    (handleLine [] exC5lines 1 1 exC5ctx).2.map KV.amount_dollars =
      [some 500, some 1500] ∧
    ∀ kv ∈ (handleLine [] exC5lines 1 1 exC5ctx).2,
      kv.program_id = exC5ctx.program_id := by
  have h := handleLine_money_range [] exC5lines 1 1 exC5ctx "$500 - $1,500"
    "500" "1,500" 500 1500 (by decide) (by decide) (by decide) (by decide)
    (by decide) (by decide) (by decide) (by decide) (by decide) (by decide)
    (by decide) (by decide) (by decide) (by decide) (by decide) (by decide)
    (by decide)
  refine ⟨?_, fun kv hkv => (h.2.2 kv hkv).2.1⟩
  rw [h.2.1]
  decide

/-- Counterexample to C5 as stated: "$0 - $500" has two distinct endpoint
values, yet the document `ex5spans` holding only that line yields ONE row —
the zero endpoint is dropped, not emitted. -/
theorem money_range_zero_counterexample :
    rangeSearch "$0 - $500" = some ("0", "500") ∧
    normalize_amount "0" ≠ normalize_amount "500" ∧
    (extract "doc" ex5spans "pdfplumber").kvs.length = 1 := by
  decide

/-- C7 (amended): within each `(page, line id)` group the joined tokens are
always in NONDECREASING left-edge order; when the left edges within the group
are pairwise distinct the order is strictly increasing and the joined line
text is invariant under permutation of the input span list (with equal left
edges the stable sort keeps input order, so the text depends on it). -/
theorem lines_from_spans_order (spans : List Span) (k : Nat × Nat) :
    List.Sorted spanLeftLE (sortedBucket spans k) ∧
    ((bucketOf spans k).Pairwise (fun a b => a.bbox.1 ≠ b.bbox.1) →
      List.Sorted spanLeftLT (sortedBucket spans k) ∧
      ∀ spans2, spans2.Perm spans → lineTextOf spans2 k = lineTextOf spans k) := by
  refine ⟨List.sorted_insertionSort spanLeftLE _, ?_⟩
  intro hdist
  have hsortLT : ∀ l : List Span, l.Perm (bucketOf spans k) →
      List.Sorted spanLeftLT (l.insertionSort spanLeftLE) := by
    intro l hl
    have hperm : (l.insertionSort spanLeftLE).Perm (bucketOf spans k) :=
      (List.perm_insertionSort spanLeftLE l).trans hl
    have hne : (l.insertionSort spanLeftLE).Pairwise
        (fun a b => a.bbox.1 ≠ b.bbox.1) :=
      (hperm.pairwise_iff fun h => Ne.symm h).mpr hdist
    have hle : List.Sorted spanLeftLE (l.insertionSort spanLeftLE) :=
      List.sorted_insertionSort spanLeftLE l
    exact (hle.and hne).imp fun h => lt_of_le_of_ne h.1 h.2
  refine ⟨hsortLT _ (List.Perm.refl _), ?_⟩
  intro spans2 hperm2
  have hbucket : (bucketOf spans2 k).Perm (bucketOf spans k) := by
    unfold bucketOf
    exact hperm2.filter _
  have h1 : List.Sorted spanLeftLT (sortedBucket spans2 k) := hsortLT _ hbucket
  have h2 : List.Sorted spanLeftLT (sortedBucket spans k) :=
    hsortLT _ (List.Perm.refl _)
  have hpp : (sortedBucket spans2 k).Perm (sortedBucket spans k) := by
    unfold sortedBucket
    exact ((List.perm_insertionSort _ _).trans hbucket).trans
      (List.perm_insertionSort _ _).symm
  have heq : sortedBucket spans2 k = sortedBucket spans k :=
    List.eq_of_perm_of_sorted hpp h1 h2
  unfold lineTextOf
  rw [heq]

/-- Witness for C7 at a two-token line with distinct left edges. -/
theorem lines_from_spans_order_witness :
    (bucketOf exC7spans (1, 1)).Pairwise (fun a b => a.bbox.1 ≠ b.bbox.1) ∧
    List.Sorted spanLeftLT (sortedBucket exC7spans (1, 1)) ∧
    lineTextOf exC7spans.reverse (1, 1) = lineTextOf exC7spans (1, 1) := by
  have hp : (bucketOf exC7spans (1, 1)).Pairwise
      (fun a b => a.bbox.1 ≠ b.bbox.1) := by decide
  have h := (lines_from_spans_order exC7spans (1, 1)).2 hp
  exact ⟨hp, h.1, h.2 _ (List.reverse_perm _)⟩

/-- Counterexample to C7 as stated: two tokens with EQUAL left edges on one
line are not joined in strictly increasing left-edge order, and reversing the
input changes the joined text ("a b" versus "b a"). -/
theorem lines_from_spans_tie_counterexample :
    exC7tie.reverse.Perm exC7tie ∧
    lineTextOf exC7tie.reverse (1, 1) ≠ lineTextOf exC7tie (1, 1) ∧
    ¬ List.Sorted spanLeftLT (sortedBucket exC7tie (1, 1)) :=
  ⟨List.reverse_perm _, by decide, by decide⟩

/-- A digit character below ten is an ASCII digit. -/
theorem digitChar_isDigit {v : Nat} (h : v < 10) : (digitChar v).isDigit = true := by
  interval_cases v <;> decide

/-- Function `digitVal` inverts `digitChar` below ten. -/
theorem digitVal_digitChar {v : Nat} (h : v < 10) : digitVal (digitChar v) = v := by
  interval_cases v <;> decide

/-- A digit character is not a date separator. -/
theorem digitChar_not_sep {v : Nat} (h : v < 10) : isDateSep (digitChar v) = false := by
  interval_cases v <;> decide

/-- A digit character of value two through nine fails the `[01]` month-prefix
class. -/
theorem digitChar_not01 {v : Nat} (h1 : 2 ≤ v) (h2 : v ≤ 9) :
    (digitChar v = '0' || digitChar v = '1') = false := by
  interval_cases v <;> decide

/-- A digit character of value four through nine fails the `[0-3]` day-prefix
class. -/
theorem digitChar_not_le3 {v : Nat} (h1 : 4 ≤ v) (h2 : v ≤ 9) :
    ('0' ≤ digitChar v && digitChar v ≤ '3') = false := by
  interval_cases v <;> decide

/-- No word boundary right after a digit character. -/
theorem boundary_digit {v : Nat} (h : v < 10) :
    boundaryBefore (some (digitChar v)) = false := by
  interval_cases v <;> decide

/-- A first-of scan over rejecting alternatives yields nothing. -/
theorem firstSome_eq_none {α β : Type} {f : α → Option β} :
    ∀ {l : List α}, (∀ a ∈ l, f a = none) → firstSome f l = none
  | [], _ => rfl
  | a :: l, h => by
    rw [firstSome, h a (by simp)]
    exact firstSome_eq_none fun x hx => h x (by simp [hx])

/-- Exactly four digits: `year4` consumes the four-digit rendering of a year
below 10000 and returns its value. -/
theorem year4_render (y : Nat) (hy : y < 10000) : year4 (render4 y) = some (y, []) := by
  have h1 := digitChar_isDigit (show y / 1000 < 10 by omega)
  have h2 := digitChar_isDigit (show y / 100 % 10 < 10 by omega)
  have h3 := digitChar_isDigit (show y / 10 % 10 < 10 by omega)
  have h4 := digitChar_isDigit (show y % 10 < 10 by omega)
  have v1 := digitVal_digitChar (show y / 1000 < 10 by omega)
  have v2 := digitVal_digitChar (show y / 100 % 10 < 10 by omega)
  have v3 := digitVal_digitChar (show y / 10 % 10 < 10 by omega)
  have v4 := digitVal_digitChar (show y % 10 < 10 by omega)
  simp only [render4, year4, h1, h2, h3, h4, v1, v2, v3, v4, Bool.and_self,
    Bool.true_and, Bool.and_true, if_true]
  have hval : ((y / 1000 * 10 + y / 100 % 10) * 10 + y / 10 % 10) * 10 + y % 10 = y := by
    omega
  rw [hval]

/-- The month alternatives of `DATE_PAT` on a rendered month (at most 19, the
range the `[01]?\d` group can capture in full) followed by a non-digit: the
full month value first, then for two-digit months the one-digit backtrack. -/
theorem monthCands_render (m : Nat) (s1 : Char) (rest : List Char)
    (hm : m ≤ 19) (hs1 : s1.isDigit = false) :
    monthCands (render12 m ++ s1 :: rest) =
      (m, s1 :: rest) ::
        (if m < 10 then [] else [(1, digitChar (m % 10) :: s1 :: rest)]) := by
  rcases Nat.lt_or_ge m 10 with h10 | h10
  · have am := digitChar_isDigit (show m < 10 by omega)
    have vm := digitVal_digitChar (show m < 10 by omega)
    simp only [render12, if_pos h10, List.cons_append, List.nil_append, monthCands]
    rw [hs1]
    simp [am, vm, h10]
  · have hq : m / 10 = 1 := by omega
    have hb := digitChar_isDigit (show m % 10 < 10 by omega)
    have vb := digitVal_digitChar (show m % 10 < 10 by omega)
    have hnot : ¬ m < 10 := by omega
    have hval : digitVal (digitChar 1) * 10 + digitVal (digitChar (m % 10)) = m := by
      rw [vb]
      have hv1 : digitVal (digitChar 1) = 1 := by decide
      rw [hv1]
      omega
    simp only [render12, if_neg hnot, List.cons_append, List.nil_append, monthCands, hq]
    have hcond : ((digitChar 1 = '0' || digitChar 1 = '1') && (digitChar (m % 10)).isDigit)
        = true := by
      rw [hb]
      decide
    rw [hcond, hval]
    have ha1 : (digitChar 1).isDigit = true := by decide
    have hv1 : digitVal (digitChar 1) = 1 := by decide
    simp [ha1, hv1]

/-- The day alternatives of `DATE_PAT` on a rendered day (at most 39, the
range the `[0-3]?\d` group can capture in full) followed by a non-digit: the
full day value first, then for two-digit days the one-digit backtrack. -/
theorem dayCands_render (d : Nat) (s2 : Char) (rest : List Char)
    (hd : d ≤ 39) (hs2 : s2.isDigit = false) :
    dayCands (render12 d ++ s2 :: rest) =
      (d, s2 :: rest) ::
        (if d < 10 then [] else [(d / 10, digitChar (d % 10) :: s2 :: rest)]) := by
  rcases Nat.lt_or_ge d 10 with h10 | h10
  · have ad := digitChar_isDigit (show d < 10 by omega)
    have vd := digitVal_digitChar (show d < 10 by omega)
    simp only [render12, if_pos h10, List.cons_append, List.nil_append, dayCands]
    rw [hs2]
    simp [ad, vd, h10]
  · have hb := digitChar_isDigit (show d % 10 < 10 by omega)
    have vb := digitVal_digitChar (show d % 10 < 10 by omega)
    have hnot : ¬ d < 10 := by omega
    have hq : d / 10 = 1 ∨ d / 10 = 2 ∨ d / 10 = 3 := by omega
    rcases hq with hq | hq | hq
    · simp only [render12, if_neg hnot, List.cons_append, List.nil_append, dayCands, hq]
      have hcond : (('0' ≤ digitChar 1 && digitChar 1 ≤ '3')
          && (digitChar (d % 10)).isDigit) = true := by rw [hb]; decide
      have hval : digitVal (digitChar 1) * 10 + digitVal (digitChar (d % 10)) = d := by
        rw [vb]
        have h1 : digitVal (digitChar 1) = 1 := by decide
        rw [h1]
        omega
      have ha : (digitChar 1).isDigit = true := by decide
      have hv : digitVal (digitChar 1) = 1 := by decide
      rw [hcond, hval]
      simp [ha, hv]
    · simp only [render12, if_neg hnot, List.cons_append, List.nil_append, dayCands, hq]
      have hcond : (('0' ≤ digitChar 2 && digitChar 2 ≤ '3')
          && (digitChar (d % 10)).isDigit) = true := by rw [hb]; decide
      have hval : digitVal (digitChar 2) * 10 + digitVal (digitChar (d % 10)) = d := by
        rw [vb]
        have h1 : digitVal (digitChar 2) = 2 := by decide
        rw [h1]
        omega
      have ha : (digitChar 2).isDigit = true := by decide
      have hv : digitVal (digitChar 2) = 2 := by decide
      rw [hcond, hval]
      simp [ha, hv]
    · simp only [render12, if_neg hnot, List.cons_append, List.nil_append, dayCands, hq]
      have hcond : (('0' ≤ digitChar 3 && digitChar 3 ≤ '3')
          && (digitChar (d % 10)).isDigit) = true := by rw [hb]; decide
      have hval : digitVal (digitChar 3) * 10 + digitVal (digitChar (d % 10)) = d := by
        rw [vb]
        have h1 : digitVal (digitChar 3) = 3 := by decide
        rw [h1]
        omega
      have ha : (digitChar 3).isDigit = true := by decide
      have hv : digitVal (digitChar 3) = 3 := by decide
      rw [hcond, hval]
      simp [ha, hv]

/-- Pattern `DATE_PAT` matches a rendered `M<sep>D<sep>YYYY` string at its
start and captures exactly the numeric components, for every month and day
the groups can capture in full. -/
theorem dateAt_render (m d y : Nat) (s1 s2 : Char)
    (hm : m ≤ 19) (hd : d ≤ 39) (hy : y < 10000)
    (hs1 : s1 = '/' ∨ s1 = '-') (hs2 : s2 = '/' ∨ s2 = '-') :
    dateAt (render12 m ++ s1 :: (render12 d ++ s2 :: render4 y)) =
      some (m, d, y, []) := by
  have hs1d : s1.isDigit = false := by rcases hs1 with rfl | rfl <;> decide
  have hs1s : isDateSep s1 = true := by rcases hs1 with rfl | rfl <;> decide
  have hs2d : s2.isDigit = false := by rcases hs2 with rfl | rfl <;> decide
  have hs2s : isDateSep s2 = true := by rcases hs2 with rfl | rfl <;> decide
  have hy4 : year4 (render4 y) = some (y, []) := year4_render y hy
  have hM := monthCands_render m s1 (render12 d ++ s2 :: render4 y) hm hs1d
  have hD := dayCands_render d s2 (render4 y) hd hs2d
  simp only [dateAt, hM, firstSome, hs1s, eq_self_iff_true, if_true, hD, hs2s,
    hy4, Option.bind, boundaryAfter]

/-- No month alternative survives inside the pure digit block of a rendered
year: every candidate resumes at another digit where the separator class
fails. -/
theorem monthCands_render4_rest (y : Nat) (hy : y < 10000) :
    ∀ p ∈ monthCands (render4 y), ∃ c r, p.2 = c :: r ∧ isDateSep c = false := by
  intro p hp
  simp only [render4, monthCands] at hp
  rcases List.mem_append.mp hp with h | h
  · split at h
    · simp only [List.mem_singleton] at h
      refine ⟨digitChar (y / 10 % 10), [digitChar (y % 10)], ?_,
        digitChar_not_sep (by omega)⟩
      rw [h]
    · simp at h
  · split at h
    · simp only [List.mem_singleton] at h
      refine ⟨digitChar (y / 100 % 10), [digitChar (y / 10 % 10), digitChar (y % 10)], ?_,
        digitChar_not_sep (by omega)⟩
      rw [h]
    · simp at h

/-- No day alternative survives inside the pure digit block of a rendered
year. -/
theorem dayCands_render4_rest (y : Nat) (hy : y < 10000) :
    ∀ p ∈ dayCands (render4 y), ∃ c r, p.2 = c :: r ∧ isDateSep c = false := by
  intro p hp
  simp only [render4, dayCands] at hp
  rcases List.mem_append.mp hp with h | h
  · split at h
    · simp only [List.mem_singleton] at h
      refine ⟨digitChar (y / 10 % 10), [digitChar (y % 10)], ?_,
        digitChar_not_sep (by omega)⟩
      rw [h]
    · simp at h
  · split at h
    · simp only [List.mem_singleton] at h
      refine ⟨digitChar (y / 100 % 10), [digitChar (y / 10 % 10), digitChar (y % 10)], ?_,
        digitChar_not_sep (by omega)⟩
      rw [h]
    · simp at h

/-- Pattern `DATE_PAT` never matches at the start of a rendered year's digit
block. -/
theorem dateAt_render4_none (y : Nat) (hy : y < 10000) : dateAt (render4 y) = none := by
  simp only [dateAt]
  apply firstSome_eq_none
  intro p hp
  obtain ⟨c, r, h2, hsep⟩ := monthCands_render4_rest y hy p hp
  simp [h2, hsep]

/-- Pattern `DATE_PAT` never matches at a two-digit field of value twenty or
more: the `[01]` class rejects the first digit and the one-digit backtrack
resumes at the second digit, where the separator class fails. -/
theorem dateAt_bigmonth_none (m : Nat) (rest : List Char)
    (hm1 : 20 ≤ m) (hm2 : m ≤ 99) :
    dateAt (render12 m ++ rest) = none := by
  have hnot : ¬ m < 10 := by omega
  simp only [render12, if_neg hnot, List.cons_append, List.nil_append, dateAt]
  apply firstSome_eq_none
  intro p hp
  simp [monthCands, digitChar_not01 (show 2 ≤ m / 10 by omega) (show m / 10 ≤ 9 by omega),
    digitChar_isDigit (show m % 10 < 10 by omega)] at hp
  obtain ⟨-, rfl⟩ := hp
  simp [digitChar_not_sep (show m % 10 < 10 by omega)]

/-- Pattern `DATE_PAT` never matches at the day field of a rendered date: the
day value parsed as a month is followed by the year's digit block, which holds
no separator. -/
theorem dateAt_day_year_none (d y : Nat) (s2 : Char) (hd : d ≤ 99) (hy : y < 10000)
    (hs2 : s2 = '/' ∨ s2 = '-') :
    dateAt (render12 d ++ s2 :: render4 y) = none := by
  have hs2d : s2.isDigit = false := by rcases hs2 with rfl | rfl <;> decide
  have hs2s : isDateSep s2 = true := by rcases hs2 with rfl | rfl <;> decide
  rcases Nat.lt_or_ge d 20 with h20 | h20
  · simp only [dateAt]
    rw [monthCands_render d s2 (render4 y) (by omega) hs2d]
    apply firstSome_eq_none
    intro p hp
    rcases List.mem_cons.mp hp with rfl | hp2
    · simp only [hs2s, eq_self_iff_true, if_true]
      apply firstSome_eq_none
      intro q hq
      obtain ⟨c, r, h2, hsep⟩ := dayCands_render4_rest y hy q hq
      simp [h2, hsep]
    · by_cases h10 : d < 10
      · rw [if_pos h10] at hp2
        simp at hp2
      · rw [if_neg h10] at hp2
        simp only [List.mem_singleton] at hp2
        subst hp2
        simp [digitChar_not_sep (show d % 10 < 10 by omega)]
  · exact dateAt_bigmonth_none d (s2 :: render4 y) h20 hd

/-- Pattern `DATE_PAT` never matches at the start of a rendered date whose
day field is forty or more: the month group succeeds but both day
alternatives fail on the `[0-3]` class or the separator. -/
theorem dateAt_bigday_full_none (m d y : Nat) (s1 s2 : Char)
    (hm : m ≤ 19) (hd1 : 40 ≤ d) (hd2 : d ≤ 99) (hy : y < 10000)
    (hs1 : s1 = '/' ∨ s1 = '-') (hs2 : s2 = '/' ∨ s2 = '-') :
    dateAt (render12 m ++ s1 :: (render12 d ++ s2 :: render4 y)) = none := by
  have hs1d : s1.isDigit = false := by rcases hs1 with rfl | rfl <;> decide
  have hs1s : isDateSep s1 = true := by rcases hs1 with rfl | rfl <;> decide
  simp only [dateAt]
  rw [monthCands_render m s1 (render12 d ++ s2 :: render4 y) hm hs1d]
  apply firstSome_eq_none
  intro p hp
  rcases List.mem_cons.mp hp with rfl | hp2
  · simp only [hs1s, eq_self_iff_true, if_true]
    apply firstSome_eq_none
    intro q hq
    have hnot : ¬ d < 10 := by omega
    simp [render12, hnot, dayCands,
      digitChar_not_le3 (show 4 ≤ d / 10 by omega) (show d / 10 ≤ 9 by omega),
      digitChar_isDigit (show d % 10 < 10 by omega)] at hq
    obtain ⟨-, rfl⟩ := hq
    simp [digitChar_not_sep (show d % 10 < 10 by omega)]
  · by_cases h10 : m < 10
    · rw [if_pos h10] at hp2
      simp at hp2
    · rw [if_neg h10] at hp2
      simp only [List.mem_singleton] at hp2
      subst hp2
      simp [digitChar_not_sep (show m % 10 < 10 by omega)]

/-- One step of the `findall` scan that finds nothing: either the position is
not at a word boundary or the pattern fails there. -/
theorem scan_step {fuel : Nat} {prev : Option Char} {c : Char} {cs : List Char}
    (h : boundaryBefore prev = false ∨ dateAt (c :: cs) = none) :
    dateFindAllAux (fuel + 1) prev (c :: cs) = dateFindAllAux fuel (some c) cs := by
  have hnone : (if boundaryBefore prev then dateAt (c :: cs) else none) = none := by
    rcases h with h | h
    · rw [h]
      rfl
    · rw [h]
      split <;> rfl
  simp only [dateFindAllAux, hnone]

/-- The `findall` scan finds nothing from the day field of a rendered date
onwards. -/
theorem scan_from_day (d y : Nat) (prev : Option Char) (s2 : Char)
    (hd : d ≤ 99) (hy : y < 10000) (hs2 : s2 = '/' ∨ s2 = '-') :
    dateFindAllAux (render12 d ++ s2 :: render4 y).length prev
      (render12 d ++ s2 :: render4 y) = [] := by
  have hday := dateAt_day_year_none d y s2 hd hy hs2
  have hy4 := dateAt_render4_none y hy
  have hde : render4 y = digitChar (y / 1000) :: digitChar (y / 100 % 10) ::
      digitChar (y / 10 % 10) :: digitChar (y % 10) :: [] := rfl
  rcases Nat.lt_or_ge d 10 with h10 | h10
  · rw [show render12 d = [digitChar d] from by rw [render12, if_pos h10]] at hday ⊢
    rw [List.cons_append, List.nil_append] at hday ⊢
    rw [List.length_cons, scan_step (Or.inr hday)]
    rw [List.length_cons, scan_step (Or.inl (boundary_digit h10))]
    rw [hde] at hy4 ⊢
    rw [List.length_cons, scan_step (Or.inr hy4)]
    rw [List.length_cons, scan_step (Or.inl (boundary_digit (show y / 1000 < 10 by omega)))]
    rw [List.length_cons,
      scan_step (Or.inl (boundary_digit (show y / 100 % 10 < 10 by omega)))]
    rw [List.length_cons,
      scan_step (Or.inl (boundary_digit (show y / 10 % 10 < 10 by omega)))]
    rfl
  · have hnot : ¬ d < 10 := by omega
    rw [show render12 d = [digitChar (d / 10), digitChar (d % 10)] from by
      rw [render12, if_neg hnot]] at hday ⊢
    rw [List.cons_append, List.cons_append, List.nil_append] at hday ⊢
    rw [List.length_cons, scan_step (Or.inr hday)]
    rw [List.length_cons, scan_step (Or.inl (boundary_digit (show d / 10 < 10 by omega)))]
    rw [List.length_cons, scan_step (Or.inl (boundary_digit (show d % 10 < 10 by omega)))]
    rw [hde] at hy4 ⊢
    rw [List.length_cons, scan_step (Or.inr hy4)]
    rw [List.length_cons, scan_step (Or.inl (boundary_digit (show y / 1000 < 10 by omega)))]
    rw [List.length_cons,
      scan_step (Or.inl (boundary_digit (show y / 100 % 10 < 10 by omega)))]
    rw [List.length_cons,
      scan_step (Or.inl (boundary_digit (show y / 10 % 10 < 10 by omega)))]
    rfl

/-- On a rendered date whose month field exceeds 19 or whose day field
exceeds 39, `DATE_PAT` matches nowhere in the whole string. -/
theorem dateSearch_render_none (m d y : Nat) (s1 s2 : Char)
    (hm : m ≤ 99) (hd : d ≤ 99) (hy : y < 10000)
    (hs1 : s1 = '/' ∨ s1 = '-') (hs2 : s2 = '/' ∨ s2 = '-')
    (hbad : 20 ≤ m ∨ (m ≤ 19 ∧ 40 ≤ d)) :
    dateSearch (renderDate m s1 d s2 y) = none := by
  have hfull : dateAt (render12 m ++ s1 :: (render12 d ++ s2 :: render4 y)) = none := by
    rcases hbad with h | ⟨h1, h2⟩
    · exact dateAt_bigmonth_none m _ h hm
    · exact dateAt_bigday_full_none m d y s1 s2 h1 h2 hd hy hs1 hs2
  simp only [dateSearch, dateFindAll]
  have hdata : (renderDate m s1 d s2 y).data =
      render12 m ++ s1 :: (render12 d ++ s2 :: render4 y) := rfl
  rw [hdata]
  rcases Nat.lt_or_ge m 10 with h10 | h10
  · rw [show render12 m = [digitChar m] from by rw [render12, if_pos h10]] at hfull ⊢
    rw [List.cons_append, List.nil_append] at hfull ⊢
    rw [List.length_cons, scan_step (Or.inr hfull)]
    rw [List.length_cons, scan_step (Or.inl (boundary_digit h10))]
    rw [scan_from_day d y (some s1) s2 hd hy hs2]
    rfl
  · have hnot : ¬ m < 10 := by omega
    rw [show render12 m = [digitChar (m / 10), digitChar (m % 10)] from by
      rw [render12, if_neg hnot]] at hfull ⊢
    rw [List.cons_append, List.cons_append, List.nil_append] at hfull ⊢
    rw [List.length_cons, scan_step (Or.inr hfull)]
    rw [List.length_cons, scan_step (Or.inl (boundary_digit (show m / 10 < 10 by omega)))]
    rw [List.length_cons, scan_step (Or.inl (boundary_digit (show m % 10 < 10 by omega)))]
    rw [scan_from_day d y (some s1) s2 hd hy hs2]
    rfl

/-- The scan of `findall` headed by an immediate match. -/
theorem dateFindAll_head (t : String) (r : Nat × Nat × Nat × List Char)
    (c : Char) (cs : List Char) (hdata : t.data = c :: cs)
    (hAt : dateAt (c :: cs) = some r) :
    dateSearch t = some (r.1, r.2.1, r.2.2.1) := by
  rw [dateSearch, dateFindAll, hdata]
  simp only [List.length_cons, dateFindAllAux, boundaryBefore, Option.elim,
    if_true, hAt, List.head?]

/-- C8 (amended): for every `M<sep>D<sep>YYYY` date string (one- or two-digit
month and day fields, four-digit year, `/` or `-` separators),
`iso_date_or_none` returns the zero-padded `YYYY-MM-DD` rendering exactly
when the month is 1..12, the day is between 1 and that month's day count, and
the year lies in the range 1900..2100 the code accepts; in every other case
— calendar-invalid strings and years outside 1900..2100 — it returns
absent. -/
theorem iso_date_correct (m d y : Nat) (s1 s2 : Char)
    (hm : m ≤ 99) (hd : d ≤ 99) (hy : y ≤ 9999)
    (hs1 : s1 = '/' ∨ s1 = '-') (hs2 : s2 = '/' ∨ s2 = '-') :
    iso_date_or_none (renderDate m s1 d s2 y) =
      if 1 ≤ m ∧ m ≤ 12 ∧ 1 ≤ d ∧ d ≤ 31 ∧ 1900 ≤ y ∧ y ≤ 2100 ∧
          d ≤ daysInMonth y m then
        some (pad4 y ++ "-" ++ pad2 m ++ "-" ++ pad2 d)
      else none := by
  by_cases hmatch : m ≤ 19 ∧ d ≤ 39
  · have hAt := dateAt_render m d y s1 s2 hmatch.1 hmatch.2 (by omega) hs1 hs2
    have hsearch : dateSearch (renderDate m s1 d s2 y) = some (m, d, y) := by
      rcases Nat.lt_or_ge m 10 with h10 | h10
      · have hdata : (renderDate m s1 d s2 y).data =
            digitChar m :: (s1 :: (render12 d ++ s2 :: render4 y)) := by
          simp [renderDate, render12, if_pos h10]
        have hAt2 : dateAt (digitChar m :: (s1 :: (render12 d ++ s2 :: render4 y))) =
            some (m, d, y, []) := by
          rw [← hAt]
          simp [render12, if_pos h10]
        exact dateFindAll_head _ (m, d, y, []) _ _ hdata hAt2
      · have hnot : ¬ m < 10 := by omega
        have hdata : (renderDate m s1 d s2 y).data =
            digitChar (m / 10) :: (digitChar (m % 10) ::
              (s1 :: (render12 d ++ s2 :: render4 y))) := by
          simp [renderDate, render12, if_neg hnot]
        have hAt2 : dateAt (digitChar (m / 10) :: (digitChar (m % 10) ::
            (s1 :: (render12 d ++ s2 :: render4 y)))) = some (m, d, y, []) := by
          rw [← hAt]
          simp [render12, if_neg hnot]
        exact dateFindAll_head _ (m, d, y, []) _ _ hdata hAt2
    simp only [iso_date_or_none, hsearch]
    by_cases h1 : 1 ≤ m ∧ m ≤ 12
    · rw [if_pos h1]
      by_cases h2 : 1 ≤ d ∧ d ≤ 31
      · rw [if_pos h2]
        by_cases h3 : 1900 ≤ y ∧ y ≤ 2100
        · rw [if_pos h3]
          by_cases h4 : d ≤ daysInMonth y m
          · rw [if_pos h4, if_pos ⟨h1.1, h1.2, h2.1, h2.2, h3.1, h3.2, h4⟩]
          · rw [if_neg h4, if_neg fun hc => h4 hc.2.2.2.2.2.2]
        · rw [if_neg h3, if_neg fun hc => h3 ⟨hc.2.2.2.2.1, hc.2.2.2.2.2.1⟩]
      · rw [if_neg h2, if_neg fun hc => h2 ⟨hc.2.2.1, hc.2.2.2.1⟩]
    · rw [if_neg h1, if_neg fun hc => h1 ⟨hc.1, hc.2.1⟩]
  · have hbad : 20 ≤ m ∨ (m ≤ 19 ∧ 40 ≤ d) := by omega
    have hsearch := dateSearch_render_none m d y s1 s2 hm hd (by omega) hs1 hs2 hbad
    simp only [iso_date_or_none, hsearch]
    have hC : ¬ (1 ≤ m ∧ m ≤ 12 ∧ 1 ≤ d ∧ d ≤ 31 ∧ 1900 ≤ y ∧ y ≤ 2100 ∧
        d ≤ daysInMonth y m) := by
      rcases hbad with h | ⟨h1, h2⟩
      · intro hc
        exact absurd hc.2.1 (by omega)
      · intro hc
        exact absurd hc.2.2.2.1 (by omega)
    rw [if_neg hC]

/-- Witness for C8: the leap day 2/29/2024 converts to "2024-02-29", and the
calendar-invalid 13/32/2024 yields absent. -/
theorem iso_date_correct_witness :
    iso_date_or_none "2/29/2024" = some "2024-02-29" ∧
    iso_date_or_none "13/32/2024" = none := by
  constructor
  · have h := iso_date_correct 2 29 2024 '/' '/' (by decide) (by decide) (by decide)
      (Or.inl rfl) (Or.inl rfl)
    have hr : renderDate 2 '/' 29 '/' 2024 = "2/29/2024" := by decide
    rw [hr] at h
    rw [h, if_pos (by decide)]
    decide
  · have h := iso_date_correct 13 32 2024 '/' '/' (by decide) (by decide) (by decide)
      (Or.inl rfl) (Or.inl rfl)
    have hr : renderDate 13 '/' 32 '/' 2024 = "13/32/2024" := by decide
    rw [hr] at h
    rw [h, if_neg (by decide)]

/-- Counterexample to C8 as stated: "1/1/1899" is a calendar-valid
M/D/YYYY date (day 1 ≤ the 31 days of January 1899), yet the function
returns absent because the year is outside 1900..2100. -/
theorem iso_date_year_range_counterexample :
    iso_date_or_none "1/1/1899" = none ∧ 1 ≤ daysInMonth 1899 1 := by
  decide

/-! ## `tighten` lemmas -/

/-- Filtering by a key commutes with a same-key insertion. -/
theorem filter_insertBest_eq {k : DKey} {kv : KV} (hkv : _dedupe_key kv = k) :
    ∀ acc : List KV,
      (insertBest kv acc).filter (byKeyB k) = insertBest kv (acc.filter (byKeyB k))
  | [] => by simp [insertBest, List.filter, byKeyB, hkv]
  | e :: es => by
    by_cases he : _dedupe_key e = _dedupe_key kv
    · have hek : _dedupe_key e = k := he.trans hkv
      by_cases hc : kv.confidence > e.confidence <;>
        simp [insertBest, he, hc, List.filter_cons, byKeyB, hek, hkv]
    · have hek : ¬ _dedupe_key e = k := fun h => he (h.trans hkv.symm)
      simp [insertBest, he, List.filter_cons, byKeyB, hek,
        filter_insertBest_eq hkv es]

/-- Filtering by a key ignores an insertion under a different key. -/
theorem filter_insertBest_ne {k : DKey} {kv : KV} (hkv : ¬ _dedupe_key kv = k) :
    ∀ acc : List KV,
      (insertBest kv acc).filter (byKeyB k) = acc.filter (byKeyB k)
  | [] => by simp [insertBest, List.filter, byKeyB, hkv]
  | e :: es => by
    by_cases he : _dedupe_key e = _dedupe_key kv
    · have hek : ¬ _dedupe_key e = k := fun h => hkv (he.symm.trans h)
      by_cases hc : kv.confidence > e.confidence <;>
        simp [insertBest, he, hc, List.filter_cons, byKeyB, hek, hkv]
    · have hke : ¬ k = _dedupe_key kv := fun h => hkv h.symm
      by_cases hek : _dedupe_key e = k
      · simp [insertBest, he, List.filter_cons, byKeyB, hek, hke,
          filter_insertBest_ne hkv es]
      · simp [insertBest, he, List.filter_cons, byKeyB, hek, hke,
          filter_insertBest_ne hkv es]

/-- Filtering by a key commutes with the whole `best`-dict fold. -/
theorem filter_dedupeFold (k : DKey) :
    ∀ (l acc : List KV),
      (l.foldl (fun a kv => insertBest kv a) acc).filter (byKeyB k) =
        (l.filter (byKeyB k)).foldl (fun a kv => insertBest kv a)
          (acc.filter (byKeyB k))
  | [], _ => rfl
  | kv :: l, acc => by
    rw [List.foldl_cons, filter_dedupeFold k l (insertBest kv acc)]
    by_cases hkv : _dedupe_key kv = k
    · rw [filter_insertBest_eq hkv acc]
      have hb : byKeyB k kv = true := by simp [byKeyB, hkv]
      rw [List.filter_cons, hb, if_pos rfl, List.foldl_cons]
    · rw [filter_insertBest_ne hkv acc]
      have hb : byKeyB k kv = false := by simp [byKeyB, hkv]
      rw [List.filter_cons, hb, if_neg (by simp)]

/-- Folding a bucket whose rows all share one key keeps exactly the best
row. -/
theorem foldl_insertBest_same_key :
    ∀ (g : List KV) (b : KV), (∀ e ∈ g, _dedupe_key e = _dedupe_key b) →
      g.foldl (fun a kv => insertBest kv a) [b] = [bestOf b g]
  | [], _, _ => rfl
  | kv :: r, b, h => by
    have hk : _dedupe_key kv = _dedupe_key b := h kv (by simp)
    have hstep : insertBest kv [b] =
        [if kv.confidence > b.confidence then kv else b] := by
      simp [insertBest, hk.symm]
    simp only [List.foldl_cons, hstep, bestOf]
    have hkey2 : _dedupe_key (if kv.confidence > b.confidence then kv else b) =
        _dedupe_key b := by
      by_cases hc : kv.confidence > b.confidence <;> simp [hc, hk]
    exact foldl_insertBest_same_key r _
      (fun e he => (h e (by simp [he])).trans hkey2.symm)

/-- The best row's confidence bounds the bucket. -/
theorem bestOf_le : ∀ (g : List KV) (b : KV),
    b.confidence ≤ (bestOf b g).confidence ∧
      ∀ e ∈ g, e.confidence ≤ (bestOf b g).confidence
  | [], b => ⟨le_refl _, by simp⟩
  | kv :: r, b => by
    simp only [bestOf]
    obtain ⟨h1, h2⟩ := bestOf_le r (if kv.confidence > b.confidence then kv else b)
    have hb : b.confidence ≤
        (if kv.confidence > b.confidence then kv else b).confidence := by
      by_cases hc : kv.confidence > b.confidence
      · rw [if_pos hc]
        exact le_of_lt hc
      · rw [if_neg hc]
    have hkv : kv.confidence ≤
        (if kv.confidence > b.confidence then kv else b).confidence := by
      by_cases hc : kv.confidence > b.confidence
      · rw [if_pos hc]
      · rw [if_neg hc]
        exact le_of_not_lt hc
    refine ⟨le_trans hb h1, ?_⟩
    intro e he
    rcases List.mem_cons.mp he with rfl | he2
    · exact le_trans hkv h1
    · exact h2 e he2

/-- The best row is the FIRST row attaining the bucket's maximum: every row
before it is strictly below it. -/
theorem bestOf_first_max : ∀ (g : List KV) (b : KV),
    ∃ g1 g2, b :: g = g1 ++ bestOf b g :: g2 ∧
      ∀ e ∈ g1, e.confidence < (bestOf b g).confidence
  | [], b => ⟨[], [], rfl, by simp⟩
  | kv :: r, b => by
    simp only [bestOf]
    by_cases hc : kv.confidence > b.confidence
    · rw [if_pos hc]
      obtain ⟨g1, g2, hdec, hlt⟩ := bestOf_first_max r kv
      refine ⟨b :: g1, g2, ?_, ?_⟩
      · rw [List.cons_append, ← hdec]
      · intro e he
        rcases List.mem_cons.mp he with rfl | he2
        · exact lt_of_lt_of_le hc (bestOf_le r kv).1
        · exact hlt e he2
    · rw [if_neg hc]
      obtain ⟨g1, g2, hdec, hlt⟩ := bestOf_first_max r b
      cases g1 with
      | nil =>
        simp only [List.nil_append] at hdec
        injection hdec with hb hr
        refine ⟨[], kv :: g2, ?_, by simp⟩
        rw [List.nil_append, ← hb, ← hr]
      | cons x g1' =>
        simp only [List.cons_append] at hdec
        injection hdec with hb hr
        refine ⟨b :: kv :: g1', g2, ?_, ?_⟩
        · rw [List.cons_append, List.cons_append, ← hr]
        · intro e he
          have hblt : b.confidence < (bestOf b r).confidence := by
            have := hlt x (by simp)
            rw [← hb] at this
            exact this
          rcases List.mem_cons.mp he with rfl | he2
          · exact hblt
          · rcases List.mem_cons.mp he2 with rfl | he3
            · exact lt_of_le_of_lt (le_of_not_lt hc) hblt
            · exact hlt e (by simp [he3])

/-- Lookup `find?` picks the marked element when everything before it refuses. -/
theorem find?_append_first {p : KV → Bool} :
    ∀ (g1 : List KV) (m : KV) (g2 : List KV),
      (∀ x ∈ g1, p x = false) → p m = true →
      (g1 ++ m :: g2).find? p = some m
  | [], m, g2, _, hm => by
    rw [List.nil_append]
    exact List.find?_cons_of_pos _ hm
  | x :: g1, m, g2, h, hm => by
    rw [List.cons_append, List.find?_cons_of_neg _ (by simp [h x (by simp)])]
    exact find?_append_first g1 m g2 (fun e he => h e (by simp [he])) hm

/-- Per-key content of `tighten`'s output: the first row of the key's bucket
whose confidence bounds the whole bucket (the claim's "highest confidence,
first on ties"), or nothing when the bucket is empty. -/
theorem tighten_filter_key (l : List KV) (k : DKey) :
    (tighten l).filter (byKeyB k) =
      (((l.filter fun kv => kv.amount_dollars ≠ none).filter (byKeyB k)).find?
        fun kv =>
          ((l.filter fun kv2 => kv2.amount_dollars ≠ none).filter (byKeyB k)).all
            fun e => e.confidence ≤ kv.confidence).toList := by
  have hperm : ((tighten l).filter (byKeyB k)).Perm
      ((dedupeBest ((l.filter fun kv => kv.amount_dollars ≠ none))).filter
        (byKeyB k)) := by
    simp only [tighten]
    exact (List.perm_insertionSort tightenLE _).filter _
  have hded : (dedupeBest ((l.filter fun kv => kv.amount_dollars ≠ none))).filter
      (byKeyB k) =
      (((l.filter fun kv => kv.amount_dollars ≠ none).filter (byKeyB k)).foldl
        (fun a kv => insertBest kv a) []) := by
    rw [dedupeBest, filter_dedupeFold k]
    rfl
  cases hg : ((l.filter fun kv => kv.amount_dollars ≠ none).filter (byKeyB k)) with
  | nil =>
    have hded0 : (dedupeBest ((l.filter fun kv => kv.amount_dollars ≠ none))).filter
        (byKeyB k) = [] := by
      rw [hded, hg]
      rfl
    have hL : (tighten l).filter (byKeyB k) = [] :=
      List.perm_nil.mp (hded0 ▸ hperm)
    rw [hL]
    rfl
  | cons b r =>
    have hmem : ∀ e ∈ b :: r, _dedupe_key e = k := by
      intro e he
      rw [← hg] at he
      have h2 := (List.mem_filter.mp he).2
      simpa [byKeyB] using h2
    have hkb : _dedupe_key b = k := hmem b (by simp)
    have hsame : ∀ e ∈ r, _dedupe_key e = _dedupe_key b := fun e he =>
      (hmem e (by simp [he])).trans hkb.symm
    have hfold : ((b :: r).foldl (fun a kv => insertBest kv a) []) = [bestOf b r] := by
      rw [List.foldl_cons]
      exact foldl_insertBest_same_key r b hsame
    have hded0 : (dedupeBest ((l.filter fun kv => kv.amount_dollars ≠ none))).filter
        (byKeyB k) = [bestOf b r] := by
      rw [hded, hg, hfold]
    have hL : (tighten l).filter (byKeyB k) = [bestOf b r] :=
      List.perm_singleton.mp (hded0 ▸ hperm)
    obtain ⟨g1, g2, hdec, hlt⟩ := bestOf_first_max r b
    have hbound := bestOf_le r b
    have hall : ∀ e ∈ b :: r, e.confidence ≤ (bestOf b r).confidence := by
      intro e he
      rcases List.mem_cons.mp he with rfl | he2
      · exact hbound.1
      · exact hbound.2 e he2
    have hpm : ((b :: r).all fun e => e.confidence ≤ (bestOf b r).confidence)
        = true := by
      rw [List.all_eq_true]
      intro e he
      exact decide_eq_true (hall e he)
    have hpx : ∀ x ∈ g1,
        ((b :: r).all fun e => e.confidence ≤ x.confidence) = false := by
      intro x hx
      have hxlt := hlt x hx
      have hmemb : bestOf b r ∈ b :: r := by
        rw [hdec]
        simp
      apply Bool.eq_false_iff.mpr
      intro hcontra
      rw [List.all_eq_true] at hcontra
      have h3 := of_decide_eq_true (hcontra _ hmemb)
      exact absurd h3 (not_le_of_lt hxlt)
    have hfind : ((b :: r).find? fun kv =>
        (b :: r).all fun e => e.confidence ≤ kv.confidence)
        = some (bestOf b r) := by
      rw [hdec] at hpx hpm ⊢
      exact find?_append_first g1 _ g2 hpx hpm
    rw [hL, hfind]
    rfl

/-- Every element of an insertion comes from the inserted row or the
accumulator. -/
theorem mem_insertBest : ∀ {kv x : KV} {acc : List KV},
    x ∈ insertBest kv acc → x = kv ∨ x ∈ acc := by
  intro kv x acc
  induction acc with
  | nil =>
    intro h
    simp only [insertBest, List.mem_singleton] at h
    exact Or.inl h
  | cons e es ih =>
    intro h
    simp only [insertBest] at h
    split at h
    · rcases List.mem_cons.mp h with h2 | h2
      · split at h2
        · exact Or.inl h2
        · exact Or.inr (by simp [h2])
      · exact Or.inr (by simp [h2])
    · rcases List.mem_cons.mp h with h2 | h2
      · exact Or.inr (by simp [h2])
      · rcases ih h2 with h3 | h3
        · exact Or.inl h3
        · exact Or.inr (by simp [h3])

/-- Every element of the `best` dict comes from the accumulator or the
input. -/
theorem mem_foldl_insertBest : ∀ (l acc : List KV) (x : KV),
    x ∈ l.foldl (fun a kv => insertBest kv a) acc → x ∈ acc ∨ x ∈ l
  | [], _, _, h => Or.inl h
  | kv :: r, acc, x, h => by
    rw [List.foldl_cons] at h
    rcases mem_foldl_insertBest r (insertBest kv acc) x h with h2 | h2
    · rcases mem_insertBest h2 with h3 | h3
      · exact Or.inr (by simp [h3])
      · exact Or.inl h3
    · exact Or.inr (by simp [h2])

/-- The key list of an insertion: unchanged when the key is present, the key
appended otherwise. -/
theorem keys_insertBest (kv : KV) : ∀ acc : List KV,
    (insertBest kv acc).map _dedupe_key =
      if _dedupe_key kv ∈ acc.map _dedupe_key then acc.map _dedupe_key
      else acc.map _dedupe_key ++ [_dedupe_key kv]
  | [] => by simp [insertBest]
  | e :: es => by
    by_cases he : _dedupe_key e = _dedupe_key kv
    · have hmem : _dedupe_key kv ∈ (e :: es).map _dedupe_key := by
        simp [he.symm]
      rw [if_pos hmem]
      simp only [insertBest]
      rw [if_pos he]
      by_cases hc : kv.confidence > e.confidence
      · rw [if_pos hc]
        simp only [List.map_cons]
        rw [he.symm]
      · rw [if_neg hc]
    · have hne : ¬ _dedupe_key kv = _dedupe_key e := fun h => he h.symm
      by_cases hmem : _dedupe_key kv ∈ es.map _dedupe_key
      · have hmem2 : _dedupe_key kv ∈ (e :: es).map _dedupe_key := by
          simp [hmem]
        rw [if_pos hmem2]
        simp [insertBest, he, keys_insertBest kv es, hmem]
      · have hmem2 : _dedupe_key kv ∉ (e :: es).map _dedupe_key := by
          simp [hne, hmem]
        rw [if_neg hmem2]
        simp [insertBest, he, keys_insertBest kv es, hmem]

/-- Inserting a row with a fresh key appends it. -/
theorem insertBest_append (kv : KV) : ∀ acc : List KV,
    _dedupe_key kv ∉ acc.map _dedupe_key → insertBest kv acc = acc ++ [kv]
  | [], _ => rfl
  | e :: es, h => by
    have he : ¬ _dedupe_key e = _dedupe_key kv := by
      intro h2
      exact h (by simp [h2.symm])
    have hes : _dedupe_key kv ∉ es.map _dedupe_key := by
      intro h2
      exact h (by simp [h2])
    simp [insertBest, he, insertBest_append kv es hes]

/-- Folding rows with pairwise-distinct keys into the dict appends them all in
order. -/
theorem foldl_insertBest_nodup : ∀ (l acc : List KV),
    ((acc ++ l).map _dedupe_key).Nodup →
    l.foldl (fun a kv => insertBest kv a) acc = acc ++ l
  | [], acc, _ => by simp
  | kv :: r, acc, h => by
    have hnotin : _dedupe_key kv ∉ acc.map _dedupe_key := by
      rw [List.map_append] at h
      obtain ⟨-, -, hdisj⟩ := List.nodup_append.mp h
      exact fun hin => hdisj hin (by simp)
    rw [List.foldl_cons, insertBest_append kv acc hnotin,
      foldl_insertBest_nodup r (acc ++ [kv]) (by simpa using h)]
    simp

/-- The dict fold keeps its keys pairwise distinct. -/
theorem keys_foldl_insertBest_nodup : ∀ (l acc : List KV),
    ((acc.map _dedupe_key).Nodup) →
    (((l.foldl (fun a kv => insertBest kv a) acc).map _dedupe_key)).Nodup
  | [], _, h => h
  | kv :: r, acc, h => by
    rw [List.foldl_cons]
    apply keys_foldl_insertBest_nodup r
    rw [keys_insertBest]
    by_cases hmem : _dedupe_key kv ∈ acc.map _dedupe_key
    · rw [if_pos hmem]
      exact h
    · rw [if_neg hmem]
      rw [List.nodup_append]
      exact ⟨h, List.nodup_singleton _,
        fun a ha hb => hmem (by rwa [List.mem_singleton.mp hb] at ha)⟩

/-- Function `tighten` is idempotent. -/
theorem tighten_idem (l : List KV) : tighten (tighten l) = tighten l := by
  have hamt : ∀ kv ∈ tighten l, kv.amount_dollars ≠ none := by
    intro kv hkv
    simp only [tighten, List.mem_insertionSort] at hkv
    rcases mem_foldl_insertBest _ [] kv hkv with h2 | h2
    · simp at h2
    · have h3 := (List.mem_filter.mp h2).2
      simpa using h3
  have hfilter : (tighten l).filter (fun k => k.amount_dollars ≠ none) = tighten l :=
    List.filter_eq_self.mpr fun a ha => by simpa using hamt a ha
  have hnodup : ((tighten l).map _dedupe_key).Nodup := by
    have h1 : ((dedupeBest ((l.filter fun k => k.amount_dollars ≠ none))).map
        _dedupe_key).Nodup :=
      keys_foldl_insertBest_nodup _ [] (by simp)
    have h2 : ((tighten l).map _dedupe_key).Perm
        ((dedupeBest ((l.filter fun k => k.amount_dollars ≠ none))).map
          _dedupe_key) := by
      simp only [tighten]
      exact (List.perm_insertionSort tightenLE _).map _dedupe_key
    exact h2.nodup_iff.mpr h1
  have hsorted : List.Sorted tightenLE (tighten l) := by
    simp only [tighten]
    exact List.sorted_insertionSort tightenLE _
  show (dedupeBest ((tighten l).filter fun k => k.amount_dollars ≠ none)).insertionSort
    tightenLE = tighten l
  rw [hfilter]
  have hded : dedupeBest (tighten l) = tighten l := by
    show (tighten l).foldl (fun a kv => insertBest kv a) [] = tighten l
    have h4 := foldl_insertBest_nodup (tighten l) [] (by simpa using hnodup)
    simpa using h4
  rw [hded]
  exact List.Sorted.insertionSort_eq hsorted

/-- C9: `tighten` is idempotent, and per uniqueness key it keeps exactly the
first row of the key's (amount-bearing) bucket whose confidence bounds the
whole bucket — the highest-confidence row, first-encountered on ties. -/
theorem tighten_idempotent_best (l : List KV) :
    tighten (tighten l) = tighten l ∧
    ∀ k : DKey,
      (tighten l).filter (byKeyB k) =
        (((l.filter fun kv => kv.amount_dollars ≠ none).filter (byKeyB k)).find?
          fun kv =>
            ((l.filter fun kv2 => kv2.amount_dollars ≠ none).filter
              (byKeyB k)).all fun e => e.confidence ≤ kv.confidence).toList :=
  ⟨tighten_idem l, tighten_filter_key l⟩

end RebateDocs
